import Mathlib

/-!
# Verification of the dCBOR diagnostic-notation parser (bc-dcbor-parse-rust)

A shallow embedding of the repository's lexer (`src/token.rs`), parser
(`src/parse.rs`), composer (`src/compose.rs`) and error renderer
(`src/error.rs`), with theorems settling the frozen claims about the
specification.

Modelling conventions:

* The source is a `List Char` and spans are half-open character-index ranges.
  (The Rust code uses byte offsets into UTF-8; on ASCII sources — all inputs
  exercised by the claims — the two coincide.)
* Numeric payloads are exact canonical decimals (`Dec`, a sign/mantissa/
  exponent triple with the mantissa not divisible by 10), mirroring dCBOR's
  numeric reduction where integral floats collapse onto integers (`1` and
  `1.0` denote the same value).  The Rust code goes through `f64`; the exact
  decimal model coincides with it on every input appearing in the claims.
* External collaborators (tag registry, known-value registry, `Date`
  parsing, base64 decoding, UR decoding) are supplied by an explicit
  environment `Env`, matching §6 of the specification, which treats them as
  out-of-scope interfaces.
* The lexer is embedded as maximal munch over per-pattern full-match
  recognizers; `matchLen` computes the longest matching prefix of each
  pattern, and the winner is the longest match, ties broken by declaration
  order (`token.rs` declaration order, with the date pattern before the
  number pattern).
-/

set_option maxHeartbeats 1000000

namespace DcborParse

/-- A half-open source range `[start, stop)`, as `logos::Span`. -/
structure Span where
  start : Nat
  stop : Nat
deriving DecidableEq, Repr

/-- Exact canonical decimal number: `(-1)^neg * mant * 10^exp` with `mant`
not divisible by 10 unless zero, and zero represented as
`⟨false, 0, 0⟩`.  This models the canonical numeric value of dCBOR
(`dcbor` reduces floats with integral value to integers, so `1` and `1.0`
are the same CBOR value). -/
structure Dec where
  neg : Bool
  mant : Nat
  exp : Int
deriving DecidableEq, Repr

/-- Strip factors of 10 from `m` (the first argument is fuel, `m` itself
suffices), returning the stripped mantissa and the count of stripped
zeros. -/
def strip10 : Nat → Nat → Nat × Nat
  | 0, m => (m, 0)
  | f + 1, m =>
    if m % 10 = 0 ∧ m ≠ 0 then
      let r := strip10 f (m / 10)
      (r.1, r.2 + 1)
    else (m, 0)

/-- Canonical decimal from a nonnegative integer. -/
def Dec.ofNat (k : Nat) : Dec :=
  if k = 0 then ⟨false, 0, 0⟩
  else
    let r := strip10 k k
    ⟨false, r.1, (r.2 : Int)⟩

/-- Value of a digit list, most significant first. -/
def digitsToNat (ds : List Char) : Nat :=
  ds.foldl (fun acc c => acc * 10 + (c.toNat - '0'.toNat)) 0

/-- Canonical decimal from a sign, a digit list and a base-10 exponent:
trailing zero digits are folded into the exponent, and zero forgets sign
and exponent. -/
def mkDec (neg : Bool) (digits : List Char) (exp : Int) : Dec :=
  let ds := (digits.reverse.dropWhile (· = '0')).reverse
  let m := digitsToNat ds
  if m = 0 then ⟨false, 0, 0⟩
  else ⟨neg, m, exp + ((digits.length - ds.length : Nat) : Int)⟩

/-- The CBOR value model (§6 of the spec: the external `dcbor::CBOR` sum).
Maps are association lists in insertion order whose insert operation
replaces the value of an equivalent key (`dcbor::Map`). -/
inductive CBOR where
  | bool (b : Bool)
  | null
  | number (d : Dec)
  | nan
  | infinity
  | negInfinity
  | bytes (bs : List Nat)
  | text (s : String)
  | array (items : List CBOR)
  | map (pairs : List (CBOR × CBOR))
  | tagged (tag : Nat) (item : CBOR)

mutual
/-- Executable structural equality on CBOR values.  In `dcbor`, map keys
are compared by canonical encoding; in this model that is structural
equality of the canonical value (numbers are already reduced in `Dec`). -/
def CBOR.beq : CBOR → CBOR → Bool
  | .bool a, .bool b => a == b
  | .null, .null => true
  | .number a, .number b => a == b
  | .nan, .nan => true
  | .infinity, .infinity => true
  | .negInfinity, .negInfinity => true
  | .bytes a, .bytes b => a == b
  | .text a, .text b => a == b
  | .array xs, .array ys => CBOR.beqList xs ys
  | .map xs, .map ys => CBOR.beqPairs xs ys
  | .tagged t a, .tagged u b => t == u && CBOR.beq a b
  | _, _ => false
/-- Pointwise `CBOR.beq` on lists. -/
def CBOR.beqList : List CBOR → List CBOR → Bool
  | [], [] => true
  | a :: as, b :: bs => CBOR.beq a b && CBOR.beqList as bs
  | _, _ => false
/-- Pointwise `CBOR.beq` on key-value pair lists. -/
def CBOR.beqPairs : List (CBOR × CBOR) → List (CBOR × CBOR) → Bool
  | [], [] => true
  | (k, v) :: as, (k2, v2) :: bs =>
    CBOR.beq k k2 && CBOR.beq v v2 && CBOR.beqPairs as bs
  | _, _ => false
end

/-- A decoded UR: its type string and inner CBOR item (`bc_ur::UR`). -/
structure URV where
  urType : String
  cbor : CBOR

/-- The errors a lexer callback can embed into a token payload
(`token.rs` sub-decoding, a sub-sum of `error.rs`'s `Error`). -/
inductive LexError where
  | invalidHexString (sp : Span)
  | invalidBase64String (sp : Span)
  | invalidDateString (s : String) (sp : Span)
  | invalidTagValue (s : String) (sp : Span)
  | invalidKnownValue (s : String) (sp : Span)
  | invalidUr (s : String) (sp : Span)
deriving DecidableEq, Repr

/-- `Token` from `src/token.rs` (the current lexer module, which includes
`DateLiteral`; the stale copy inside `src/parse.rs` lacks only that
variant).  Payloads that the lexer sub-decodes carry `Except LexError`
exactly where the Rust payload is a `Result`. -/
inductive Token where
  | bool (b : Bool)
  | braceOpen
  | braceClose
  | bracketOpen
  | bracketClose
  | parenOpen
  | parenClose
  | colon
  | comma
  | null
  | nan
  | infinity
  | negInfinity
  | byteStringHex (payload : Except LexError (List Nat))
  | byteStringBase64 (payload : Except LexError (List Nat))
  | dateLiteral (payload : Except LexError Dec)
  | number (d : Dec)
  | string (s : String)
  | tagValue (payload : Except LexError Nat)
  | tagName (name : String)
  | knownValueNumber (payload : Except LexError Nat)
  | knownValueName (name : String)
  | unit
  | ur (payload : Except LexError URV)

/-- `Error` from `src/error.rs` (the full closed error sum, including
`DuplicateMapKey` and `InvalidDateString`). -/
inductive Error where
  | emptyInput
  | unexpectedEndOfInput
  | extraData (sp : Span)
  | unexpectedToken (t : Token) (sp : Span)
  | unrecognizedToken (sp : Span)
  | expectedComma (sp : Span)
  | expectedColon (sp : Span)
  | unmatchedParentheses (sp : Span)
  | unmatchedBraces (sp : Span)
  | expectedMapKey (sp : Span)
  | invalidTagValue (s : String) (sp : Span)
  | unknownTagName (s : String) (sp : Span)
  | invalidHexString (sp : Span)
  | invalidBase64String (sp : Span)
  | unknownUrType (s : String) (sp : Span)
  | invalidUr (s : String) (sp : Span)
  | invalidKnownValue (s : String) (sp : Span)
  | unknownKnownValueName (s : String) (sp : Span)
  | invalidDateString (s : String) (sp : Span)
  | duplicateMapKey (sp : Span)

/-- Embeds a payload-level lexing error into the full error sum (in the
Rust source both live in the single `Error` type; the parser surfaces the
embedded value unchanged). -/
def LexError.toError : LexError → Error
  | .invalidHexString sp => .invalidHexString sp
  | .invalidBase64String sp => .invalidBase64String sp
  | .invalidDateString s sp => .invalidDateString s sp
  | .invalidTagValue s sp => .invalidTagValue s sp
  | .invalidKnownValue s sp => .invalidKnownValue s sp
  | .invalidUr s sp => .invalidUr s sp

/-- `Error::is_default` from `parse.rs`: whether the error is the lexer's
sentinel `UnrecognizedToken`. -/
def Error.isDefault : Error → Bool
  | .unrecognizedToken _ => true
  | _ => false

/-- The parse environment (§6): the process-wide tag and known-value
registries and the external decoders (`dcbor::Date::from_string`, the
`base64` crate, `bc_ur::UR::from_ur_string`). -/
structure Env where
  tagForName : String → Option Nat
  knownValueForName : String → Option Nat
  dateFromString : String → Option Dec
  b64Decode : String → Option (List Nat)
  urFromString : String → Except String URV

/-- An environment with empty registries and failing external decoders
(used for concrete inputs that do not consult them). -/
def defaultEnv : Env where
  tagForName := fun _ => none
  knownValueForName := fun _ => none
  dateFromString := fun _ => none
  b64Decode := fun _ => none
  urFromString := fun _ => .error "not available"

/-- An `Env` whose known-value registry resolves (only) the empty name to
known value 0, mirroring a `KnownValuesStore` holding the `Unit` value. -/
def unitEnv : Env :=
  { defaultEnv with knownValueForName := fun s => if s = "" then some 0 else none }

/-- An `Env` whose date decoder resolves (only) the ISO-8601 date
`2023-01-01`, to its epoch-seconds value 1672531200 (what
`Date::from_string` returns for it). -/
def dateEnv : Env :=
  { defaultEnv with dateFromString := fun s =>
      if s = "2023-01-01" then some (Dec.ofNat 1672531200) else none }

/-! ## Character classes (the regex character classes of `token.rs`) -/

def isWsChar (c : Char) : Bool :=
  c = ' ' || c = '\t' || c = '\r' || c = '\n' || c = Char.ofNat 12

def isDigitChar (c : Char) : Bool := '0' ≤ c && c ≤ '9'

def isNonzeroDigit (c : Char) : Bool := '1' ≤ c && c ≤ '9'

def isHexDigitChar (c : Char) : Bool :=
  isDigitChar c || ('a' ≤ c && c ≤ 'f') || ('A' ≤ c && c ≤ 'F')

def isAlphaChar (c : Char) : Bool :=
  ('a' ≤ c && c ≤ 'z') || ('A' ≤ c && c ≤ 'Z')

def isAlnumChar (c : Char) : Bool := isAlphaChar c || isDigitChar c

def isIdentStart (c : Char) : Bool := isAlphaChar c || c = '_'

def isIdentChar (c : Char) : Bool := isAlnumChar c || c = '_' || c = '-'

def isB64Char (c : Char) : Bool := isAlnumChar c || c = '+' || c = '/' || c = '='

def isControlChar (c : Char) : Bool := c.toNat ≤ 31

/-! ## Whitespace and comment skipping

The `logos` skip pattern of `token.rs` is
`(?:[ \t\r\n\f]|/[^/]*/|#[^\n]*)+`: whitespace, `/…/` inline comments and
`#…` end-of-line comments.  `skipScan` recognizes exactly the strings of
this language (`hash` mode is inside a `#` comment, `slash` mode is
inside a `/…/` comment). -/

inductive SkipMode where
  | unit
  | hash
  | slash
deriving DecidableEq, Repr

def skipScan : List Char → SkipMode → Bool
  | [], .unit => true
  | [], .hash => true
  | [], .slash => false
  | c :: r, .unit =>
    if isWsChar c then skipScan r .unit
    else if c = '/' then skipScan r .slash
    else if c = '#' then skipScan r .hash
    else false
  | c :: r, .hash => if c = '\n' then skipScan r .unit else skipScan r .hash
  | c :: r, .slash => if c = '/' then skipScan r .unit else skipScan r .slash

/-- Full match of the skip pattern (one or more units). -/
def isSkipMatch (l : List Char) : Bool := !l.isEmpty && skipScan l .unit

/-! ## Token pattern recognizers

One Boolean full-match recognizer per `token.rs` pattern: `isXTok l` holds
iff `l` is exactly a word of the pattern's language.  Maximal munch is
recovered generically by `matchLen` below. -/

/-- Exponent tail of the number pattern: `[+-]?\d+`, to the end. -/
def numExpTail (l : List Char) : Bool :=
  let r := match l with
    | '+' :: r => r
    | '-' :: r => r
    | _ => l
  !r.isEmpty && r.all isDigitChar

/-- Optional exponent of the number pattern: `(?:[eE][+-]?\d+)?`, to the end. -/
def numExpEnd : List Char → Bool
  | [] => true
  | 'e' :: r => numExpTail r
  | 'E' :: r => numExpTail r
  | _ => false

/-- Optional fraction and exponent of the number pattern:
`(?:\.\d+)?(?:[eE][+-]?\d+)?`, to the end. -/
def numAfterInt : List Char → Bool
  | '.' :: r => !(r.takeWhile isDigitChar).isEmpty && numExpEnd (r.dropWhile isDigitChar)
  | l => numExpEnd l

/-- Integer part then fraction/exponent of the number pattern:
`(?:0|[1-9]\d*)(?:\.\d+)?(?:[eE][+-]?\d+)?`, to the end. -/
def numIntPart : List Char → Bool
  | '0' :: r => numAfterInt r
  | c :: r => isNonzeroDigit c && numAfterInt (r.dropWhile isDigitChar)
  | [] => false

/-- `Number`: `-?(?:0|[1-9]\d*)(?:\.\d+)?(?:[eE][+-]?\d+)?`. -/
def isNumberTok (l : List Char) : Bool :=
  numIntPart
    (match l with
     | '-' :: r => r
     | _ => l)

/-- Optional timezone of the date pattern: `(?:Z|[+-]\d{2}:\d{2})?`, to the end. -/
def dateTz : List Char → Bool
  | [] => true
  | ['Z'] => true
  | ['+', a, b, ':', c, d] => isDigitChar a && isDigitChar b && isDigitChar c && isDigitChar d
  | ['-', a, b, ':', c, d] => isDigitChar a && isDigitChar b && isDigitChar c && isDigitChar d
  | _ => false

/-- Optional fractional seconds then timezone: `(?:\.\d+)?(?:Z|[+-]\d{2}:\d{2})?`. -/
def dateFrac : List Char → Bool
  | '.' :: r => !(r.takeWhile isDigitChar).isEmpty && dateTz (r.dropWhile isDigitChar)
  | l => dateTz l

/-- Optional time-of-day part: `(?:T\d{2}:\d{2}:\d{2}(?:\.\d+)?(?:Z|[+-]\d{2}:\d{2})?)?`. -/
def dateTime : List Char → Bool
  | [] => true
  | 'T' :: h1 :: h2 :: ':' :: m1 :: m2 :: ':' :: s1 :: s2 :: rest =>
    isDigitChar h1 && isDigitChar h2 && isDigitChar m1 && isDigitChar m2 &&
      isDigitChar s1 && isDigitChar s2 && dateFrac rest
  | _ => false

/-- `DateLiteral`: `\d{4}-\d{2}-\d{2}(?:T\d{2}:\d{2}:\d{2}(?:\.\d+)?(?:Z|[+-]\d{2}:\d{2})?)?`. -/
def isDateTok : List Char → Bool
  | y1 :: y2 :: y3 :: y4 :: '-' :: m1 :: m2 :: '-' :: d1 :: d2 :: rest =>
    isDigitChar y1 && isDigitChar y2 && isDigitChar y3 && isDigitChar y4 &&
      isDigitChar m1 && isDigitChar m2 && isDigitChar d1 && isDigitChar d2 &&
      dateTime rest
  | _ => false

/-- The single-character escapes `["\\bnfrt/]` of the string pattern. -/
def isSimpleEsc (e : Char) : Bool :=
  e = '"' || e = '\\' || e = 'b' || e = 'n' || e = 'f' || e = 'r' || e = 't' || e = '/'

/-- Body of the string pattern after the opening quote:
`(?:[^"\\\x00-\x1F]|\\(?:["\\bnfrt/]|u[a-fA-F0-9]{4}))*"`, to the end. -/
def strBody : List Char → Bool
  | [] => false
  | c :: r =>
    if c = '"' then r.isEmpty
    else if c = '\\' then
      match r with
      | [] => false
      | e :: r2 =>
        if isSimpleEsc e then strBody r2
        else if e = 'u' then
          match r2 with
          | a :: b :: c2 :: d :: r3 =>
            isHexDigitChar a && isHexDigitChar b && isHexDigitChar c2 && isHexDigitChar d &&
              strBody r3
          | _ => false
        else false
    else if !isControlChar c then strBody r else false

/-- `String`: a double-quoted JavaScript-style string literal (the lexer does
not unescape; the slice includes the outer quotes). -/
def isStringTok : List Char → Bool
  | [] => false
  | c :: r => if c = '"' then strBody r else false

/-- Inner hex digits then the closing quote, to the end. -/
def hexInner : List Char → Bool
  | [] => false
  | '\'' :: r => r.isEmpty
  | c :: r => isHexDigitChar c && hexInner r

/-- `ByteStringHex`: `h'[0-9a-fA-F]*'`. -/
def isHexTok : List Char → Bool
  | 'h' :: '\'' :: r => hexInner r
  | _ => false

/-- Inner base64 characters (counted) then the closing quote, to the end. -/
def b64Inner : List Char → Nat → Bool
  | [], _ => false
  | '\'' :: r, cnt => r.isEmpty && decide (2 ≤ cnt)
  | c :: r, cnt => isB64Char c && b64Inner r (cnt + 1)

/-- `ByteStringBase64`: `b64'(?:[A-Za-z0-9+/=]{2,})'`. -/
def isB64Tok : List Char → Bool
  | 'b' :: '6' :: '4' :: '\'' :: r => b64Inner r 0
  | _ => false

/-- `TagValue`: `0\(|[1-9][0-9]*\(` (the trailing `(` is part of the token). -/
def isTagValueTok : List Char → Bool
  | '0' :: r => r == ['(']
  | c :: r => isNonzeroDigit c && r.dropWhile isDigitChar == ['(']
  | [] => false

/-- `TagName`: `[a-zA-Z_][a-zA-Z0-9_-]*\(`. -/
def isTagNameTok : List Char → Bool
  | c :: r => isIdentStart c && r.dropWhile isIdentChar == ['(']
  | [] => false

/-- `KnownValueNumber`: `'0'|'[1-9][0-9]*'`. -/
def isKVNumTok : List Char → Bool
  | '\'' :: '0' :: r => r == ['\'']
  | '\'' :: c :: r => isNonzeroDigit c && r.dropWhile isDigitChar == ['\'']
  | _ => false

/-- `KnownValueName`: `''|'[a-zA-Z_][a-zA-Z0-9_-]*'`. -/
def isKVNameTok : List Char → Bool
  | ['\'', '\''] => true
  | '\'' :: c :: r => isIdentStart c && r.dropWhile isIdentChar == ['\'']
  | _ => false

/-- Rest of the UR pattern after `ur:` and the first type character:
`[a-zA-Z0-9-]*/[a-zA-Z]{8,}`, to the end. -/
def urAfterType : List Char → Bool
  | '/' :: r => decide (8 ≤ r.length) && r.all isAlphaChar
  | c :: r => (isAlnumChar c || c = '-') && urAfterType r
  | [] => false

/-- `UR`: `ur:(?:[a-zA-Z0-9][a-zA-Z0-9-]*)/(?:[a-zA-Z]{8,})`. -/
def isURTok : List Char → Bool
  | 'u' :: 'r' :: ':' :: c :: r => isAlnumChar c && urAfterType r
  | _ => false

/-! ## Maximal munch -/

/-- Largest `n ≤ bound` such that `P (l.take n)`, scanning downward. -/
def maxMatchAux (P : List Char → Bool) (l : List Char) : Nat → Option Nat
  | 0 => if P (l.take 0) then some 0 else none
  | n + 1 => if P (l.take (n + 1)) then some (n + 1) else maxMatchAux P l n

/-- Length of the longest prefix of `l` that fully matches `P` (maximal
munch for one pattern). -/
def matchLen (P : List Char → Bool) (l : List Char) : Option Nat :=
  maxMatchAux P l l.length

/-- Length of the maximal leading whitespace/comment run (`logos` applies
the skip pattern greedily before each token). -/
def skipLen (l : List Char) : Nat := (matchLen isSkipMatch l).getD 0

/-- The lexer's patterns, one identifier per `token.rs` pattern, in
declaration order (so the date pattern sits before the number pattern). -/
inductive PatId where
  | pFalse
  | pTrue
  | pBraceOpen
  | pBraceClose
  | pBracketOpen
  | pBracketClose
  | pParenOpen
  | pParenClose
  | pColon
  | pComma
  | pNull
  | pNaN
  | pInfinity
  | pNegInfinity
  | pHex
  | pB64
  | pDate
  | pNumber
  | pString
  | pTagValue
  | pTagName
  | pKVNum
  | pKVName
  | pUnit
  | pUR
deriving DecidableEq, Repr

/-- The recognizer of each pattern. -/
def patRec : PatId → List Char → Bool
  | .pFalse => fun l => l == "false".toList
  | .pTrue => fun l => l == "true".toList
  | .pBraceOpen => fun l => l == ['{']
  | .pBraceClose => fun l => l == ['}']
  | .pBracketOpen => fun l => l == ['[']
  | .pBracketClose => fun l => l == [']']
  | .pParenOpen => fun l => l == ['(']
  | .pParenClose => fun l => l == [')']
  | .pColon => fun l => l == [':']
  | .pComma => fun l => l == [',']
  | .pNull => fun l => l == "null".toList
  | .pNaN => fun l => l == "NaN".toList
  | .pInfinity => fun l => l == "Infinity".toList
  | .pNegInfinity => fun l => l == "-Infinity".toList
  | .pHex => isHexTok
  | .pB64 => isB64Tok
  | .pDate => isDateTok
  | .pNumber => isNumberTok
  | .pString => isStringTok
  | .pTagValue => isTagValueTok
  | .pTagName => isTagNameTok
  | .pKVNum => isKVNumTok
  | .pKVName => isKVNameTok
  | .pUnit => fun l => l == "Unit".toList
  | .pUR => isURTok

/-- All patterns in declaration order. -/
def patList : List PatId :=
  [.pFalse, .pTrue, .pBraceOpen, .pBraceClose, .pBracketOpen, .pBracketClose,
   .pParenOpen, .pParenClose, .pColon, .pComma, .pNull, .pNaN, .pInfinity,
   .pNegInfinity, .pHex, .pB64, .pDate, .pNumber, .pString, .pTagValue,
   .pTagName, .pKVNum, .pKVName, .pUnit, .pUR]

/-- The winning pattern at the head of `l`: the longest match wins, ties go
to the earliest declared pattern (`logos` disambiguation; no two of these
patterns tie at equal length on any input, see the design note in §9 of
the spec). -/
def winnerStep (l : List Char) (best : Option (PatId × Nat)) (p : PatId) :
    Option (PatId × Nat) :=
  match matchLen (patRec p) l with
  | none => best
  | some n =>
    match best with
    | none => some (p, n)
    | some (q, m) => if m < n then some (p, n) else some (q, m)

def winner (l : List Char) : Option (PatId × Nat) :=
  patList.foldl (winnerStep l) none

/-! ## Token construction (the `token.rs` callbacks) -/

/-- Value of a hex digit. -/
def hexVal (c : Char) : Nat :=
  if isDigitChar c then c.toNat - '0'.toNat
  else if 'a' ≤ c && c ≤ 'f' then c.toNat - 'a'.toNat + 10
  else if 'A' ≤ c && c ≤ 'F' then c.toNat - 'A'.toNat + 10
  else 0

/-- Byte values of an even-length hex digit list (`hex::decode`, which
cannot fail on the even-length all-hex slices the lexer hands it). -/
def hexDecode : List Char → List Nat
  | a :: b :: r => (hexVal a * 16 + hexVal b) :: hexDecode r
  | _ => []

/-- Signed exponent value from the slice after `e`/`E`. -/
def sliceExp (l : List Char) : Int :=
  match l with
  | '+' :: r => (digitsToNat (r.takeWhile isDigitChar) : Int)
  | '-' :: r => -(digitsToNat (r.takeWhile isDigitChar) : Int)
  | r => (digitsToNat (r.takeWhile isDigitChar) : Int)

/-- Exact decimal value of a matched number slice
(`lex.slice().parse::<f64>()`; the model keeps the value exact, which
coincides with the `f64` route on every input a claim mentions). -/
def sliceNumDec (slice : List Char) : Dec :=
  let p := match slice with
    | '-' :: r => (true, r)
    | _ => (false, slice)
  let intDs := p.2.takeWhile isDigitChar
  let rest1 := p.2.dropWhile isDigitChar
  let q := match rest1 with
    | '.' :: r => (r.takeWhile isDigitChar, r.dropWhile isDigitChar)
    | _ => (([] : List Char), rest1)
  let expVal : Int := match q.2 with
    | 'e' :: r => sliceExp r
    | 'E' :: r => sliceExp r
    | _ => 0
  mkDec p.1 (intDs ++ q.1) (expVal - (q.1.length : Int))

/-- Builds the token for the winning pattern from its matched slice and its
absolute span, running the `token.rs` callback (including eager
sub-decoding with embedded errors). -/
def buildToken (env : Env) (pat : PatId) (slice : List Char) (sp : Span) : Token :=
  match pat with
  | .pFalse => .bool false
  | .pTrue => .bool true
  | .pBraceOpen => .braceOpen
  | .pBraceClose => .braceClose
  | .pBracketOpen => .bracketOpen
  | .pBracketClose => .bracketClose
  | .pParenOpen => .parenOpen
  | .pParenClose => .parenClose
  | .pColon => .colon
  | .pComma => .comma
  | .pNull => .null
  | .pNaN => .nan
  | .pInfinity => .infinity
  | .pNegInfinity => .negInfinity
  | .pHex =>
    let inner := (slice.drop 2).dropLast
    if inner.length % 2 ≠ 0 then .byteStringHex (.error (.invalidHexString sp))
    else .byteStringHex (.ok (hexDecode inner))
  | .pB64 =>
    match env.b64Decode (String.mk ((slice.drop 4).dropLast)) with
    | some bs => .byteStringBase64 (.ok bs)
    | none => .byteStringBase64 (.error (.invalidBase64String sp))
  | .pDate =>
    match env.dateFromString (String.mk slice) with
    | some d => .dateLiteral (.ok d)
    | none => .dateLiteral (.error (.invalidDateString (String.mk slice) sp))
  | .pNumber => .number (sliceNumDec slice)
  | .pString => .string (String.mk slice)
  | .pTagValue =>
    let ds := slice.dropLast
    if digitsToNat ds < 2 ^ 64 then .tagValue (.ok (digitsToNat ds))
    else .tagValue (.error (.invalidTagValue (String.mk ds) ⟨sp.start, sp.stop - 1⟩))
  | .pTagName => .tagName (String.mk slice.dropLast)
  | .pKVNum =>
    let ds := (slice.drop 1).dropLast
    if digitsToNat ds < 2 ^ 64 then .knownValueNumber (.ok (digitsToNat ds))
    else .knownValueNumber (.error (.invalidKnownValue (String.mk ds) ⟨sp.start + 1, sp.stop - 1⟩))
  | .pKVName => .knownValueName (String.mk ((slice.drop 1).dropLast))
  | .pUnit => .unit
  | .pUR =>
    match env.urFromString (String.mk slice) with
    | .ok u => .ur (.ok u)
    | .error msg => .ur (.error (.invalidUr msg sp))

/-! ## The token stream

`logos` is a streaming lexer, but its output does not depend on the
parser's state, so the embedding lexes the whole source up front and lets
the parser consume the resulting list.  A stream element is the result of
one `lexer.next()`: `Ok token` or the sentinel error for an unrecognized
region.

Modelling notes (no theorem below depends on either):
* on unrecognized input the embedding advances one character and gives the
  attempt the one-character span;
* the sentinel error's own payload span is `0..0` (`Span::default()`), as
  in the source; `expect_token` in the source replaces it with
  `lexer.span()` captured *before* `next()` (the previous token's range) —
  the embedding's `expectTok` uses the offending attempt's range instead. -/

/-- One `lexer.next()` outcome. -/
abbrev TokA := Except Error Token

/-- A suffix of the token stream with spans. -/
abbrev TS := List (TokA × Span)

/-- The token stream from position `pos` (fuel-indexed; each step consumes
at least one character, so `src.length + 1 - pos` fuel is exact). -/
def lexAllF (env : Env) (src : List Char) : Nat → Nat → TS
  | 0, _ => []
  | fuel + 1, pos =>
    let suf := src.drop pos
    let sk := skipLen suf
    let suf2 := suf.drop sk
    match suf2 with
    | [] => []
    | _ =>
      match winner suf2 with
      | some pn =>
        (.ok (buildToken env pn.1 (suf2.take pn.2) ⟨pos + sk, pos + sk + pn.2⟩),
          (⟨pos + sk, pos + sk + pn.2⟩ : Span)) ::
          lexAllF env src fuel (pos + sk + pn.2)
      | none =>
        (.error (.unrecognizedToken ⟨0, 0⟩), (⟨pos + sk, pos + sk + 1⟩ : Span)) ::
          lexAllF env src fuel (pos + sk + 1)

/-- The full token stream of a source. -/
def lexAll (env : Env) (src : List Char) : TS :=
  lexAllF env src (src.length + 1) 0

/-! ## The parser (`src/parse.rs`)

The recursive-descent parser, as one fuel-indexed function `parseGo` over
a sum of call frames `PC` (the source's mutually recursive
`parse_item` / `parse_item_token` / `parse_number_tag` / `parse_name_tag`
/ `parse_array` / `parse_map`; the two loops carry the source's two-flag
comma state).  `none` means the fuel ran out; `parseGo_fuel` below shows
`3 * tokens + 4` fuel never does. -/

/-- `expect_token` from `parse.rs`: the next stream element, with the
sentinel lexing error re-spanned, or `UnexpectedEndOfInput` when the
stream is exhausted. -/
def expectTok : TS → Except Error (Token × Span × TS)
  | [] => .error .unexpectedEndOfInput
  | (att, sp) :: rest =>
    match att with
    | .ok t => .ok (t, sp, rest)
    | .error e => .error (if e.isDefault then .unrecognizedToken sp else e)

/-- `parse_string` from `parse.rs`: requires the slice to start and end
with a double quote and strips exactly those (escapes are left verbatim).
(On the one-character slice `"` the Rust slice expression would panic; the
lexer never produces it, and the model returns the empty text there.) -/
def parseString (s : String) (sp : Span) : Except Error CBOR :=
  let cs := s.toList
  if cs.head? = some '"' ∧ cs.getLast? = some '"' then
    .ok (.text (String.mk ((cs.drop 1).dropLast)))
  else .error (.unrecognizedToken sp)

/-- `parse_ur` from `parse.rs`: wrap the UR's CBOR in the tag registered
for its type, or `UnknownUrType` spanning the type name (3 characters past
the span start, for the `ur:` scheme). -/
def parseUr (env : Env) (u : URV) (sp : Span) : Except Error CBOR :=
  match env.tagForName u.urType with
  | some tag => .ok (.tagged tag u.cbor)
  | none =>
    .error (.unknownUrType u.urType ⟨sp.start + 3, sp.start + 3 + u.urType.length⟩)

/-- `dcbor::Map::insert`: replace the value of an equivalent key in place,
else append.  Equivalence is canonical-value equality (`CBOR.beq`). -/
def mapInsert (pairs : List (CBOR × CBOR)) (k v : CBOR) : List (CBOR × CBOR) :=
  match pairs with
  | [] => [(k, v)]
  | (k0, v0) :: rest =>
    if CBOR.beq k0 k then (k0, v) :: rest else (k0, v0) :: mapInsert rest k v

/-- `KnownValue::new(k).into()`: the canonical dCBOR encoding of a known
value, tag 40000 around the unsigned number. -/
def knownValueCBOR (k : Nat) : CBOR := .tagged 40000 (.number (Dec.ofNat k))

/-- A parser call frame. -/
inductive PC where
  | item (ts : TS)
  | itemToken (t : Token) (sp : Span) (ts : TS)
  | numberTag (v : Nat) (ts : TS)
  | nameTag (nm : String) (sp : Span) (ts : TS)
  | arrayLoop (items : List CBOR) (ac ai : Bool) (ts : TS)
  | mapLoop (pairs : List (CBOR × CBOR)) (ac ak : Bool) (ts : TS)

/-- The unconsumed token stream of a call frame. -/
def PC.ts : PC → TS
  | .item ts => ts
  | .itemToken _ _ ts => ts
  | .numberTag _ ts => ts
  | .nameTag _ _ ts => ts
  | .arrayLoop _ _ _ ts => ts
  | .mapLoop _ _ _ ts => ts

/-- The same call frame over a different token stream. -/
def PC.setTs : PC → TS → PC
  | .item _, ts => .item ts
  | .itemToken t sp _, ts => .itemToken t sp ts
  | .numberTag v _, ts => .numberTag v ts
  | .nameTag nm sp _, ts => .nameTag nm sp ts
  | .arrayLoop items ac ai _, ts => .arrayLoop items ac ai ts
  | .mapLoop pairs ac ak _, ts => .mapLoop pairs ac ak ts

/-- The parser.  `eofSpan` is `lexer.span()` at an exhausted stream
(`source.len()..source.len()`). -/
def parseGo (env : Env) (eofSpan : Span) : Nat → PC → Option (Except Error (CBOR × TS))
  | 0, _ => none
  | fuel + 1, pc =>
    match pc with
    | .item ts =>
      -- parse_item: expect a token, then dispatch on it.
      match expectTok ts with
      | .error e => some (.error e)
      | .ok (t, sp, rest) => parseGo env eofSpan fuel (.itemToken t sp rest)
    | .itemToken t sp ts =>
      match t with
      -- embedded lexing errors in token payloads surface first; the
      -- DateLiteral cases are modelled from the spec (`parse.rs` in src/
      -- predates the date token; spec §4.1: "the parser surfaces that
      -- error when it attempts to consume the token's payload", §4.2 and
      -- §6: a date value is serialized as CBOR tag 1).
      | .byteStringHex (.error e) => some (.error e.toError)
      | .byteStringBase64 (.error e) => some (.error e.toError)
      | .tagValue (.error e) => some (.error e.toError)
      | .ur (.error e) => some (.error e.toError)
      | .knownValueNumber (.error e) => some (.error e.toError)
      | .dateLiteral (.error e) => some (.error e.toError)
      | .bool b => some (.ok (.bool b, ts))
      | .null => some (.ok (.null, ts))
      | .byteStringHex (.ok bs) => some (.ok (.bytes bs, ts))
      | .byteStringBase64 (.ok bs) => some (.ok (.bytes bs, ts))
      | .number d => some (.ok (.number d, ts))
      | .nan => some (.ok (.nan, ts))
      | .infinity => some (.ok (.infinity, ts))
      | .negInfinity => some (.ok (.negInfinity, ts))
      | .string s =>
        (match parseString s sp with
         | .ok c => some (.ok (c, ts))
         | .error e => some (.error e))
      | .ur (.ok u) =>
        (match parseUr env u sp with
         | .ok c => some (.ok (c, ts))
         | .error e => some (.error e))
      | .dateLiteral (.ok d) => some (.ok (.tagged 1 (.number d), ts))
      | .tagValue (.ok v) => parseGo env eofSpan fuel (.numberTag v ts)
      | .tagName nm => parseGo env eofSpan fuel (.nameTag nm sp ts)
      | .knownValueNumber (.ok k) => some (.ok (knownValueCBOR k, ts))
      | .knownValueName nm =>
        (match env.knownValueForName nm with
         | some k => some (.ok (knownValueCBOR k, ts))
         | none =>
           some (.error (.unknownKnownValueName nm ⟨sp.start + 1, sp.stop - 1⟩)))
      | .unit => some (.ok (knownValueCBOR 0, ts))
      | .bracketOpen => parseGo env eofSpan fuel (.arrayLoop [] false false ts)
      | .braceOpen => parseGo env eofSpan fuel (.mapLoop [] false false ts)
      | _ => some (.error (.unexpectedToken t sp))
    | .numberTag v ts =>
      -- parse_number_tag: the inner item, then `)` is required; an
      -- exhausted stream becomes UnmatchedParentheses at the lexer span.
      match parseGo env eofSpan fuel (.item ts) with
      | none => none
      | some (.error e) => some (.error e)
      | some (.ok (c, rest)) =>
        match expectTok rest with
        | .ok (.parenClose, _, rest2) => some (.ok (.tagged v c, rest2))
        | .ok (_, sp2, _) => some (.error (.unmatchedParentheses sp2))
        | .error .unexpectedEndOfInput => some (.error (.unmatchedParentheses eofSpan))
        | .error e => some (.error e)
    | .nameTag nm sp ts =>
      -- parse_name_tag: the name span excludes the trailing `(`; note the
      -- `?` on expect_token, under which an exhausted stream propagates
      -- UnexpectedEndOfInput (unlike parse_number_tag).
      match parseGo env eofSpan fuel (.item ts) with
      | none => none
      | some (.error e) => some (.error e)
      | some (.ok (c, rest)) =>
        match expectTok rest with
        | .error e => some (.error e)
        | .ok (.parenClose, _, rest2) =>
          (match env.tagForName nm with
           | some tag => some (.ok (.tagged tag c, rest2))
           | none => some (.error (.unknownTagName nm ⟨sp.start, sp.stop - 1⟩)))
        | .ok (_, sp2, _) => some (.error (.unmatchedParentheses sp2))
    | .arrayLoop items ac ai ts =>
      -- parse_array: `expect_token(lexer)?`, then the source's big match;
      -- `fb` is its fall-through arm (ExpectedComma when a comma was
      -- awaited, otherwise UnexpectedToken), reached whenever no arm's
      -- pattern-and-guard applies — in particular by item tokens whose
      -- embedded payload is an error, which the Ok-patterned arms skip.
      match expectTok ts with
      | .error e => some (.error e)
      | .ok (t, sp, rest) =>
        let fb : Except Error (CBOR × TS) :=
          .error (if ac then .expectedComma sp else .unexpectedToken t sp)
        match t with
        | .comma =>
          if ac then parseGo env eofSpan fuel (.arrayLoop items false true rest)
          else some fb
        | .bracketClose => if !ai then some (.ok (.array items, rest)) else some fb
        | .bool b =>
          if !ac then parseGo env eofSpan fuel (.arrayLoop (items ++ [.bool b]) true false rest)
          else some fb
        | .null =>
          if !ac then parseGo env eofSpan fuel (.arrayLoop (items ++ [.null]) true false rest)
          else some fb
        | .byteStringHex (.ok bs) =>
          if !ac then parseGo env eofSpan fuel (.arrayLoop (items ++ [.bytes bs]) true false rest)
          else some fb
        | .byteStringBase64 (.ok bs) =>
          if !ac then parseGo env eofSpan fuel (.arrayLoop (items ++ [.bytes bs]) true false rest)
          else some fb
        | .number d =>
          if !ac then parseGo env eofSpan fuel (.arrayLoop (items ++ [.number d]) true false rest)
          else some fb
        | .nan =>
          if !ac then parseGo env eofSpan fuel (.arrayLoop (items ++ [.nan]) true false rest)
          else some fb
        | .infinity =>
          if !ac then parseGo env eofSpan fuel (.arrayLoop (items ++ [.infinity]) true false rest)
          else some fb
        | .negInfinity =>
          if !ac then parseGo env eofSpan fuel (.arrayLoop (items ++ [.negInfinity]) true false rest)
          else some fb
        | .string s =>
          if !ac then
            match parseString s sp with
            | .ok c => parseGo env eofSpan fuel (.arrayLoop (items ++ [c]) true false rest)
            | .error e => some (.error e)
          else some fb
        | .ur (.ok u) =>
          if !ac then
            match parseUr env u sp with
            | .ok c => parseGo env eofSpan fuel (.arrayLoop (items ++ [c]) true false rest)
            | .error e => some (.error e)
          else some fb
        | .dateLiteral (.ok d) =>
          -- spec-modelled arm, as in itemToken
          if !ac then
            parseGo env eofSpan fuel (.arrayLoop (items ++ [.tagged 1 (.number d)]) true false rest)
          else some fb
        | .tagValue (.ok v) =>
          if !ac then
            match parseGo env eofSpan fuel (.numberTag v rest) with
            | none => none
            | some (.error e) => some (.error e)
            | some (.ok (c, rest2)) =>
              parseGo env eofSpan fuel (.arrayLoop (items ++ [c]) true false rest2)
          else some fb
        | .tagName nm =>
          if !ac then
            match parseGo env eofSpan fuel (.nameTag nm sp rest) with
            | none => none
            | some (.error e) => some (.error e)
            | some (.ok (c, rest2)) =>
              parseGo env eofSpan fuel (.arrayLoop (items ++ [c]) true false rest2)
          else some fb
        | .knownValueNumber (.ok k) =>
          if !ac then
            parseGo env eofSpan fuel (.arrayLoop (items ++ [knownValueCBOR k]) true false rest)
          else some fb
        | .knownValueName nm =>
          -- note: in the array context the error span is the full token
          -- span, unlike parse_item_token's quote-stripped span.
          if !ac then
            match env.knownValueForName nm with
            | some k =>
              parseGo env eofSpan fuel (.arrayLoop (items ++ [knownValueCBOR k]) true false rest)
            | none => some (.error (.unknownKnownValueName nm sp))
          else some fb
        | .bracketOpen =>
          if !ac then
            match parseGo env eofSpan fuel (.arrayLoop [] false false rest) with
            | none => none
            | some (.error e) => some (.error e)
            | some (.ok (c, rest2)) =>
              parseGo env eofSpan fuel (.arrayLoop (items ++ [c]) true false rest2)
          else some fb
        | .braceOpen =>
          if !ac then
            match parseGo env eofSpan fuel (.mapLoop [] false false rest) with
            | none => none
            | some (.error e) => some (.error e)
            | some (.ok (c, rest2)) =>
              parseGo env eofSpan fuel (.arrayLoop (items ++ [c]) true false rest2)
          else some fb
        -- Unit, parentheses, colon, braceClose and Err-payload tokens have
        -- no arm in the source and fall through.
        | _ => some fb
    | .mapLoop pairs ac ak ts =>
      -- parse_map: an exhausted stream at the loop head becomes
      -- UnmatchedBraces; BraceClose closes unless a key is awaited; Comma
      -- advances when one is awaited; everything else reaches the
      -- fall-through arm, which requires a comma if one is awaited and
      -- otherwise parses the token as a key, requires `:` (any expect
      -- failure there is ExpectedColon), parses the value (rewriting an
      -- UnexpectedToken(BraceClose) from it into ExpectedMapKey) and
      -- inserts the pair.  There is no duplicate-key check: `map.insert`
      -- replaces the value of an equivalent key (see the C1 theorems).
      match ts with
      | [] => some (.error (.unmatchedBraces eofSpan))
      | (att, sp) :: rest =>
        match att with
        | .error e => some (.error (if e.isDefault then .unrecognizedToken sp else e))
        | .ok t =>
          let keyPath : Option (Except Error (CBOR × TS)) :=
            if ac then some (.error (.expectedComma sp))
            else
              match parseGo env eofSpan fuel (.itemToken t sp rest) with
              | none => none
              | some (.error e) => some (.error e)
              | some (.ok (key, rest2)) =>
                match rest2 with
                | (.ok .colon, _) :: rest3 =>
                  (match parseGo env eofSpan fuel (.item rest3) with
                   | none => none
                   | some (.error (.unexpectedToken .braceClose sp4)) =>
                     some (.error (.expectedMapKey sp4))
                   | some (.error e) => some (.error e)
                   | some (.ok (v, rest4)) =>
                     parseGo env eofSpan fuel (.mapLoop (mapInsert pairs key v) true false rest4))
                | (_, sp2) :: _ => some (.error (.expectedColon sp2))
                | [] => some (.error (.expectedColon eofSpan))
          match t with
          | .braceClose => if !ak then some (.ok (.map pairs, rest)) else keyPath
          | .comma =>
            if ac then parseGo env eofSpan fuel (.mapLoop pairs false true rest)
            else keyPath
          | _ => keyPath

/-- The fuel the entry points pass to `parseGo`; `parseGo_fuel` shows it
suffices for every frame over `ts`. -/
def fuelFor (ts : TS) : Nat := 3 * ts.length + 4

/-- The fuel each call frame needs over its stream (`parseGo_fuel`):
`fuelFor ts` dominates the `itemToken` frame the entry points start in. -/
def pcCost : PC → Nat
  | .item ts => 3 * ts.length + 2
  | .itemToken _ _ ts => 3 * ts.length + 4
  | .numberTag _ ts => 3 * ts.length + 3
  | .nameTag _ _ ts => 3 * ts.length + 3
  | .arrayLoop _ _ _ ts => 3 * ts.length + 3
  | .mapLoop _ _ _ ts => 3 * ts.length + 3

/-- `parse_dcbor_item` from `src/parse.rs` (re-exported as `parse_item`):
lex, parse one item, and reject a remaining token attempt as ExtraData
with that attempt's span; an absent first token is EmptyInput. -/
def parse_dcbor_item (env : Env) (src : List Char) : Except Error CBOR :=
  match expectTok (lexAll env src) with
  | .error .unexpectedEndOfInput => .error .emptyInput
  | .error e => .error e
  | .ok (t, sp, rest) =>
    match parseGo env ⟨src.length, src.length⟩ (fuelFor rest) (.itemToken t sp rest) with
    | none => .error .unexpectedEndOfInput  -- unreachable: parseGo_fuel
    | some (.error e) => .error e
    | some (.ok (c, [])) => .ok c
    | some (.ok (_, (_, sp2) :: _)) => .error (.extraData sp2)

/-- Modelled from the spec: `parse_dcbor_item_partial` (re-exported as
`parse_item_partial`) is exercised by `src/tests/test_parse.rs` but its
definition is not among the files under `src/`.  Per spec §4.2 it
"succeeds on the first well-formed item even if more source follows", and
the consumed byte count "is the start offset of the first unconsumed
token, or `source.len()` if none"; the error behaviour on a missing or
malformed first item is that of `parse_item`. -/
def parse_dcbor_item_part (env : Env) (src : List Char) : Except Error (CBOR × Nat) :=
  match expectTok (lexAll env src) with
  | .error .unexpectedEndOfInput => .error .emptyInput
  | .error e => .error e
  | .ok (t, sp, rest) =>
    match parseGo env ⟨src.length, src.length⟩ (fuelFor rest) (.itemToken t sp rest) with
    | none => .error .unexpectedEndOfInput  -- unreachable: parseGo_fuel
    | some (.error e) => .error e
    | some (.ok (c, [])) => .ok (c, src.length)
    | some (.ok (c, (_, sp2) :: _)) => .ok (c, sp2.start)

/-! ## The composer (`src/compose.rs`) -/

/-- `compose.rs::Error` (`ComposeError` in the crate's public interface). -/
inductive ComposeError where
  | invalidOddMapLength
  | parseError (e : Error)

/-- Parses each fragment as one dCBOR item, in order. -/
def composeArrayItems (env : Env) : List String → Except ComposeError (List CBOR)
  | [] => .ok []
  | f :: rest =>
    match parse_dcbor_item env f.toList with
    | .error e => .error (.parseError e)
    | .ok c =>
      match composeArrayItems env rest with
      | .error e => .error e
      | .ok cs => .ok (c :: cs)

/-- `compose_dcbor_array` from `src/compose.rs`. -/
def compose_dcbor_array (env : Env) (frags : List String) : Except ComposeError CBOR :=
  (composeArrayItems env frags).map .array

/-- Parses `(key, value)` fragment pairs in order and inserts each into
the accumulating map (`Map::insert`, so an equivalent key keeps the last
value). -/
def composeMapPairs (env : Env) :
    List String → List (CBOR × CBOR) → Except ComposeError (List (CBOR × CBOR))
  | [], acc => .ok acc
  | k :: v :: rest, acc =>
    match parse_dcbor_item env k.toList with
    | .error e => .error (.parseError e)
    | .ok kc =>
      match parse_dcbor_item env v.toList with
      | .error e => .error (.parseError e)
      | .ok vc => composeMapPairs env rest (mapInsert acc kc vc)
  | [_], _ => .error .invalidOddMapLength  -- unreachable after the length check

/-- `compose_dcbor_map` from `src/compose.rs`: the fragment count must be
even; pairs are parsed and inserted in order. -/
def compose_dcbor_map (env : Env) (frags : List String) : Except ComposeError CBOR :=
  if frags.length % 2 ≠ 0 then .error .invalidOddMapLength
  else (composeMapPairs env frags []).map .map

/-! ## The diagnostic renderer (`src/error.rs`) -/

/-- An abridged rendering of a token for the `Unexpected token {0:?}`
message (the Rust side uses `#[derive(Debug)]`; no claim constrains the
exact text, only that it is the message of the `line N: <message>`
head line). -/
def tokenDebugName : Token → String
  | .bool b => if b then "Bool(true)" else "Bool(false)"
  | .braceOpen => "BraceOpen"
  | .braceClose => "BraceClose"
  | .bracketOpen => "BracketOpen"
  | .bracketClose => "BracketClose"
  | .parenOpen => "ParenthesisOpen"
  | .parenClose => "ParenthesisClose"
  | .colon => "Colon"
  | .comma => "Comma"
  | .null => "Null"
  | .nan => "NaN"
  | .infinity => "Infinity"
  | .negInfinity => "NegInfinity"
  | .byteStringHex _ => "ByteStringHex"
  | .byteStringBase64 _ => "ByteStringBase64"
  | .dateLiteral _ => "DateLiteral"
  | .number _ => "Number"
  | .string _ => "String"
  | .tagValue _ => "TagValue"
  | .tagName _ => "TagName"
  | .knownValueNumber _ => "KnownValueNumber"
  | .knownValueName _ => "KnownValueName"
  | .unit => "Unit"
  | .ur _ => "UR"

/-- The `thiserror` display string of each error variant (payload quoting
abridged; no claim constrains the message text). -/
def errorMessage : Error → String
  | .emptyInput => "Empty input"
  | .unexpectedEndOfInput => "Unexpected end of input"
  | .extraData _ => "Extra data at end of input"
  | .unexpectedToken t _ => "Unexpected token " ++ tokenDebugName t
  | .unrecognizedToken _ => "Unrecognized token"
  | .expectedComma _ => "Expected comma"
  | .expectedColon _ => "Expected colon"
  | .unmatchedParentheses _ => "Unmatched parentheses"
  | .unmatchedBraces _ => "Unmatched braces"
  | .expectedMapKey _ => "Expected map key"
  | .invalidTagValue s _ => "Invalid tag value " ++ s
  | .unknownTagName s _ => "Unknown tag name " ++ s
  | .invalidHexString _ => "Invalid hex string"
  | .invalidBase64String _ => "Invalid base64 string"
  | .unknownUrType s _ => "Unknown UR type " ++ s
  | .invalidUr s _ => "Invalid UR " ++ s
  | .invalidKnownValue s _ => "Invalid known value " ++ s
  | .unknownKnownValueName s _ => "Unknown known value name " ++ s
  | .invalidDateString s _ => "Invalid date string " ++ s
  | .duplicateMapKey _ => "Duplicate map key"

/-- The variant-to-span dispatch of `Error::full_message`: every spanned
variant passes its own span; `EmptyInput` passes `Span::default()` and
`UnexpectedEndOfInput` passes `source.len()..source.len()`. -/
def errSpanUsed (e : Error) (srcLen : Nat) : Span :=
  match e with
  | .emptyInput => ⟨0, 0⟩
  | .unexpectedEndOfInput => ⟨srcLen, srcLen⟩
  | .extraData sp => sp
  | .unexpectedToken _ sp => sp
  | .unrecognizedToken sp => sp
  | .expectedComma sp => sp
  | .expectedColon sp => sp
  | .unmatchedParentheses sp => sp
  | .unmatchedBraces sp => sp
  | .expectedMapKey sp => sp
  | .invalidTagValue _ sp => sp
  | .unknownTagName _ sp => sp
  | .invalidHexString sp => sp
  | .invalidBase64String sp => sp
  | .unknownUrType _ sp => sp
  | .invalidUr _ sp => sp
  | .invalidKnownValue _ sp => sp
  | .unknownKnownValueName _ sp => sp
  | .invalidDateString _ sp => sp
  | .duplicateMapKey sp => sp

/-- The walk in `format_message`: over the chars with index below `start`,
count line breaks and remember the offset just past the last one.
Returns `(line_number, line_start)`. -/
def walkLineAux (start : Nat) : List Char → Nat → Nat → Nat → Nat × Nat
  | [], _, ln, ls => (ln, ls)
  | c :: rest, idx, ln, ls =>
    if start ≤ idx then (ln, ls)
    else if c = '\n' then walkLineAux start rest (idx + 1) (ln + 1) (idx + 1)
    else walkLineAux start rest (idx + 1) ln ls

/-- Strip one trailing carriage return (`str::lines` does). -/
def rstripCR (l : List Char) : List Char :=
  if l.getLast? = some '\r' then l.dropLast else l

/-- Split on `'\n'`, keeping every segment (so `n` newlines give `n + 1`
segments). -/
def splitNl : List Char → List (List Char)
  | [] => [[]]
  | c :: r =>
    let rest := splitNl r
    if c = '\n' then [] :: rest
    else
      match rest with
      | seg :: more => (c :: seg) :: more
      | [] => [[c]]

/-- `str::lines`: split on `'\n'`, drop a final empty segment, strip a
trailing `'\r'` from each line. -/
def linesOf (src : List Char) : List String :=
  let segs := splitNl src
  let segs2 :=
    match segs.getLast? with
    | some [] => segs.dropLast
    | _ => segs
  segs2.map (fun l => String.mk (rstripCR l))

/-- `Error::format_message`: the three-line diagnostic against the
original source. -/
def formatMessage (message : String) (source : List Char) (range : Span) : String :=
  let w := walkLineAux range.start source 0 1 0
  let line := ((linesOf source).getD (w.1 - 1) "")
  let column := range.start - w.2
  let underlineLen := max (range.stop - range.start) 1
  let caret := String.mk (List.replicate column ' ' ++ List.replicate underlineLen '^')
  "line " ++ toString w.1 ++ ": " ++ message ++ "\n" ++ line ++ "\n" ++ caret

/-- `Error::full_message`: dispatches every variant to `format_message`
with the span `errSpanUsed` describes. -/
def fullMessage (e : Error) (source : List Char) : String :=
  formatMessage (errorMessage e) source (errSpanUsed e source.length)

/-- Spec-side (for C9): the number of line breaks in `t`; one less than the
1-based line number of the position just past `t`. -/
def countNl (t : List Char) : Nat := t.countP (fun c => c = '\n')

/-- Spec-side (for C9): the offset just past the last line break of `t`
(0 if `t` has none): the start, within `t`, of the line containing the
position `t.length`. -/
def lineStartIn : List Char → Nat
  | [] => 0
  | c :: t => if countNl t ≠ 0 then 1 + lineStartIn t else if c = '\n' then 1 else 0

/-! ## Generic facts about maximal munch -/

theorem maxMatchAux_le {P : List Char → Bool} {l : List Char} {b n : Nat}
    (h : maxMatchAux P l b = some n) : n ≤ b := by
  induction b with
  | zero =>
    simp only [maxMatchAux] at h
    split at h
    · cases h; exact Nat.le_refl 0
    · cases h
  | succ b ih =>
    simp only [maxMatchAux] at h
    split at h
    · cases h; exact Nat.le_refl _
    · exact Nat.le_succ_of_le (ih h)

theorem maxMatchAux_eq_some {P : List Char → Bool} {l : List Char} {b n : Nat} :
    maxMatchAux P l b = some n ↔
      n ≤ b ∧ P (l.take n) = true ∧ ∀ m, n < m → m ≤ b → P (l.take m) = false := by
  induction b with
  | zero =>
    simp only [maxMatchAux]
    split
    · rename_i hp
      constructor
      · intro h; cases h
        exact ⟨Nat.le_refl 0, hp, fun m h1 h2 => absurd (Nat.lt_of_lt_of_le h1 h2) (Nat.lt_irrefl 0)⟩
      · rintro ⟨h0, -, -⟩
        cases Nat.le_zero.mp h0
        rfl
    · rename_i hp
      constructor
      · intro h; cases h
      · rintro ⟨h0, hp2, -⟩
        cases Nat.le_zero.mp h0
        exact absurd hp2 (by simpa using hp)
  | succ b ih =>
    simp only [maxMatchAux]
    split
    · rename_i hp
      constructor
      · intro h; cases h
        exact ⟨Nat.le_refl _, hp,
          fun m h1 h2 => absurd (Nat.lt_of_lt_of_le h1 h2) (Nat.lt_irrefl _)⟩
      · rintro ⟨h0, hp2, hmax⟩
        rcases Nat.lt_or_ge n (b + 1) with hlt | hge
        · exact absurd hp (by simp [hmax (b + 1) hlt (Nat.le_refl _)])
        · congr 1; exact Nat.le_antisymm hge h0
    · rename_i hp
      rw [ih]
      constructor
      · rintro ⟨h0, hp2, hmax⟩
        refine ⟨Nat.le_succ_of_le h0, hp2, fun m h1 h2 => ?_⟩
        rcases Nat.lt_or_ge m (b + 1) with hlt | hge
        · exact hmax m h1 (Nat.lt_succ_iff.mp hlt)
        · have : m = b + 1 := Nat.le_antisymm h2 hge
          subst this
          simpa using hp
      · rintro ⟨h0, hp2, hmax⟩
        have hn : n ≤ b := by
          rcases Nat.lt_or_ge n (b + 1) with hlt | hge
          · exact Nat.lt_succ_iff.mp hlt
          · have : n = b + 1 := Nat.le_antisymm h0 hge
            subst this
            exact absurd hp2 (by simpa using hp)
        exact ⟨hn, hp2, fun m h1 h2 => hmax m h1 (Nat.le_succ_of_le h2)⟩

theorem maxMatchAux_eq_none {P : List Char → Bool} {l : List Char} {b : Nat} :
    maxMatchAux P l b = none ↔ ∀ m, m ≤ b → P (l.take m) = false := by
  induction b with
  | zero =>
    simp only [maxMatchAux]
    split
    · rename_i hp
      simp only [reduceCtorEq, false_iff, not_forall]
      exact ⟨0, Nat.le_refl 0, by simpa using hp⟩
    · rename_i hp
      simp only [true_iff]
      intro m hm
      cases Nat.le_zero.mp hm
      simpa using hp
  | succ b ih =>
    simp only [maxMatchAux]
    split
    · rename_i hp
      simp only [reduceCtorEq, false_iff, not_forall]
      exact ⟨b + 1, Nat.le_refl _, by simp [hp]⟩
    · rename_i hp
      rw [ih]
      constructor
      · intro h m hm
        rcases Nat.lt_or_ge m (b + 1) with hlt | hge
        · exact h m (Nat.lt_succ_iff.mp hlt)
        · have : m = b + 1 := Nat.le_antisymm hm hge
          subst this
          simpa using hp
      · intro h m hm
        exact h m (Nat.le_succ_of_le hm)

theorem matchLen_le {P : List Char → Bool} {l : List Char} {n : Nat}
    (h : matchLen P l = some n) : n ≤ l.length :=
  maxMatchAux_le h

theorem skipLen_le (l : List Char) : skipLen l ≤ l.length := by
  unfold skipLen
  cases h : matchLen isSkipMatch l with
  | none => simp
  | some n => simpa using matchLen_le h

/-- `matchLen` is characterized extensionally: the match, and maximality. -/
theorem matchLen_eq_some {P : List Char → Bool} {l : List Char} {n : Nat} :
    matchLen P l = some n ↔
      n ≤ l.length ∧ P (l.take n) = true ∧
        ∀ m, n < m → m ≤ l.length → P (l.take m) = false := by
  unfold matchLen
  exact maxMatchAux_eq_some

theorem matchLen_eq_none {P : List Char → Bool} {l : List Char} :
    matchLen P l = none ↔ ∀ m, m ≤ l.length → P (l.take m) = false := by
  unfold matchLen
  exact maxMatchAux_eq_none

/-- Truncating the input past a pattern's maximal match does not change
the match: a match of a prefix is a match of the whole (the recognizers
see only the characters they consume). -/
theorem matchLen_take {P : List Char → Bool} {l : List Char} {k n : Nat}
    (h : matchLen P l = some n) (hn : n ≤ k) :
    matchLen P (l.take k) = some n := by
  rw [matchLen_eq_some] at h ⊢
  obtain ⟨hle, hp, hmax⟩ := h
  refine ⟨?_, ?_, ?_⟩
  · simp only [List.length_take]
    exact le_min hn hle
  · rw [List.take_take, Nat.min_eq_left hn]
    exact hp
  · intro m h1 h2
    simp only [List.length_take] at h2
    rw [List.take_take, Nat.min_eq_left (le_of_le_of_eq (le_min_iff.mp h2).1 rfl)]
    exact hmax m h1 (le_min_iff.mp h2).2

theorem matchLen_take_none {P : List Char → Bool} {l : List Char} {k : Nat}
    (h : matchLen P l = none) :
    matchLen P (l.take k) = none := by
  rw [matchLen_eq_none] at h ⊢
  intro m hm
  simp only [List.length_take] at hm
  rw [List.take_take, Nat.min_eq_left (le_min_iff.mp hm).1]
  exact h m (le_min_iff.mp hm).2

/-! ## Winner selection facts -/

theorem foldl_winnerStep_congr {l l' : List Char} :
    ∀ (ps : List PatId) (b : Option (PatId × Nat)),
      (∀ p ∈ ps, matchLen (patRec p) l' = matchLen (patRec p) l) →
      ps.foldl (winnerStep l') b = ps.foldl (winnerStep l) b
  | [], _, _ => rfl
  | p :: ps, b, h => by
    simp only [List.foldl_cons]
    have hstep : winnerStep l' b p = winnerStep l b p := by
      unfold winnerStep
      rw [h p (List.mem_cons_self p ps)]
    rw [hstep]
    exact foldl_winnerStep_congr ps _ (fun q hq => h q (List.mem_cons_of_mem p hq))

/-- If every pattern's maximal match is unchanged, so is the winner. -/
theorem winner_congr {l l' : List Char}
    (h : ∀ p ∈ patList, matchLen (patRec p) l' = matchLen (patRec p) l) :
    winner l' = winner l :=
  foldl_winnerStep_congr patList none h

theorem foldl_winnerStep_max {l : List Char} :
    ∀ (ps : List PatId) (b : Option (PatId × Nat)) (p : PatId) (n : Nat),
      ps.foldl (winnerStep l) b = some (p, n) →
      (∀ q ∈ ps, ∀ m, matchLen (patRec q) l = some m → m ≤ n) ∧
        (∀ p0 n0, b = some (p0, n0) → n0 ≤ n)
  | [], b, p, n, h => by
    refine ⟨by simp, fun p0 n0 h0 => ?_⟩
    rw [h0] at h
    cases h
    exact Nat.le_refl n
  | q :: ps, b, p, n, h => by
    simp only [List.foldl_cons] at h
    obtain ⟨htail, hb⟩ := foldl_winnerStep_max ps (winnerStep l b q) p n h
    have hq : ∀ m, matchLen (patRec q) l = some m → m ≤ n := by
      intro m hm
      unfold winnerStep at hb
      rw [hm] at hb
      cases b with
      | none => exact hb q m rfl
      | some pr =>
        rcases pr with ⟨q0, m0⟩
        by_cases hlt : m0 < m
        · simp only [if_pos hlt] at hb
          exact hb q m rfl
        · simp only [if_neg hlt] at hb
          exact Nat.le_trans (Nat.le_of_not_lt hlt) (hb q0 m0 rfl)
    refine ⟨fun r hr m hm => ?_, fun p0 n0 h0 => ?_⟩
    · rcases List.mem_cons.mp hr with rfl | hr'
      · exact hq m hm
      · exact htail r hr' m hm
    · subst h0
      unfold winnerStep at hb
      cases hml : matchLen (patRec q) l with
      | none =>
        rw [hml] at hb
        exact hb p0 n0 rfl
      | some m =>
        rw [hml] at hb
        by_cases hlt : n0 < m
        · simp only [if_pos hlt] at hb
          exact Nat.le_trans (Nat.le_of_lt hlt) (hb q m rfl)
        · simp only [if_neg hlt] at hb
          exact hb p0 n0 rfl

/-- The winner's length bounds every pattern's maximal match. -/
theorem winner_max {l : List Char} {p : PatId} {n : Nat}
    (h : winner l = some (p, n)) :
    ∀ q, ∀ m, matchLen (patRec q) l = some m → m ≤ n := by
  intro q m hm
  have hq : q ∈ patList := by cases q <;> simp [patList]
  exact (foldl_winnerStep_max patList none p n h).1 q hq m hm

theorem foldl_winnerStep_mem {l : List Char} :
    ∀ (ps : List PatId) (b : Option (PatId × Nat)) (p : PatId) (n : Nat),
      ps.foldl (winnerStep l) b = some (p, n) →
      b = some (p, n) ∨ matchLen (patRec p) l = some n
  | [], b, p, n, h => Or.inl h
  | q :: ps, b, p, n, h => by
    simp only [List.foldl_cons] at h
    rcases foldl_winnerStep_mem ps (winnerStep l b q) p n h with h' | h'
    · unfold winnerStep at h'
      cases hml : matchLen (patRec q) l with
      | none =>
        rw [hml] at h'
        exact Or.inl h'
      | some m =>
        rw [hml] at h'
        cases b with
        | none =>
          cases h'
          exact Or.inr hml
        | some pr =>
          rcases pr with ⟨q0, m0⟩
          by_cases hlt : m0 < m
          · simp only [if_pos hlt] at h'
            cases h'
            exact Or.inr hml
          · simp only [if_neg hlt] at h'
            exact Or.inl h'
    · exact Or.inr h'

/-- The winner's own pattern attains the winning length. -/
theorem winner_matchLen {l : List Char} {p : PatId} {n : Nat}
    (h : winner l = some (p, n)) : matchLen (patRec p) l = some n := by
  rcases foldl_winnerStep_mem patList none p n h with h' | h'
  · cases h'
  · exact h'

theorem foldl_winnerStep_none {l : List Char} :
    ∀ (ps : List PatId) (b : Option (PatId × Nat)),
      ps.foldl (winnerStep l) b = none →
      b = none ∧ ∀ q ∈ ps, matchLen (patRec q) l = none
  | [], b, h => ⟨h, by simp⟩
  | q :: ps, b, h => by
    simp only [List.foldl_cons] at h
    obtain ⟨hb, htail⟩ := foldl_winnerStep_none ps (winnerStep l b q) h
    unfold winnerStep at hb
    cases hml : matchLen (patRec q) l with
    | none =>
      rw [hml] at hb
      refine ⟨hb, fun r hr => ?_⟩
      rcases List.mem_cons.mp hr with rfl | hr'
      · exact hml
      · exact htail r hr'
    | some m =>
      rw [hml] at hb
      exfalso
      cases b with
      | none => cases hb
      | some pr =>
        rcases pr with ⟨q0, m0⟩
        by_cases hlt : m0 < m
        · simp only [if_pos hlt] at hb
          cases hb
        · simp only [if_neg hlt] at hb
          cases hb

/-- No pattern matches the empty string. -/
theorem patRec_nil (p : PatId) : patRec p [] = false := by
  cases p <;> rfl

/-- A winning match is nonempty. -/
theorem winner_pos {l : List Char} {p : PatId} {n : Nat}
    (h : winner l = some (p, n)) : 1 ≤ n := by
  rcases Nat.eq_zero_or_pos n with rfl | hpos
  · have hm := winner_matchLen h
    rw [matchLen_eq_some] at hm
    have := hm.2.1
    rw [List.take_zero] at this
    rw [patRec_nil p] at this
    cases this
  · exact hpos

/-- Truncating past the winning length keeps the same winner. -/
theorem winner_take {l : List Char} {p : PatId} {n k : Nat}
    (h : winner l = some (p, n)) (hk : n ≤ k) : winner (l.take k) = some (p, n) := by
  rw [winner_congr (l := l)]
  · exact h
  · intro q _
    cases hml : matchLen (patRec q) l with
    | none => exact matchLen_take_none hml
    | some m => exact matchLen_take hml (Nat.le_trans (winner_max h q m hml) hk)

/-- Truncation cannot create a winner where there was none. -/
theorem winner_take_none {l : List Char} {k : Nat}
    (h : winner l = none) : winner (l.take k) = none := by
  rw [winner_congr (l := l)]
  · exact h
  · intro q hq
    have := (foldl_winnerStep_none patList none h).2 q hq
    rw [this]
    exact matchLen_take_none this

/-! ## Stream-level facts -/

theorem expectTok_eq_ok {ts : TS} {t : Token} {sp : Span} {rest : TS} :
    expectTok ts = .ok (t, sp, rest) ↔ ts = (.ok t, sp) :: rest := by
  cases ts with
  | nil => simp [expectTok]
  | cons hd tl =>
    rcases hd with ⟨att, sp'⟩
    cases att with
    | ok t' => simp [expectTok, and_assoc]
    | error e => simp [expectTok]

/-- The token stream is empty exactly when the skip pattern swallows the
whole source (only whitespace and comments, or nothing at all). -/
theorem lexAll_eq_nil_iff (env : Env) (src : List Char) :
    lexAll env src = [] ↔ skipLen src = src.length := by
  unfold lexAll
  simp only [lexAllF, List.drop_zero, Nat.zero_add]
  cases hd : src.drop (skipLen src) with
  | nil =>
    simp only [true_iff]
    have := List.drop_eq_nil_iff.mp hd
    exact Nat.le_antisymm (skipLen_le src) this
  | cons c r =>
    constructor
    · intro h
      cases hw : winner (c :: r) with
      | some pn => rw [hw] at h; cases h
      | none => rw [hw] at h; cases h
    · intro h
      rw [h] at hd
      rw [List.drop_length] at hd
      cases hd

/-! ## Claim C1 -/

/-- C1: the claim says every map literal is checked for dCBOR-equivalent
duplicate keys before insertion and a collision raises `DuplicateMapKey`
with the second key's span.  The code under `src/src/parse.rs` does no
such check: `parse_map` calls `map.insert(key, value)` unconditionally
(lines 387–430), its `Error` enum cannot even represent `DuplicateMapKey`,
and the only `DuplicateMapKey` declaration (`src/src/error.rs` 47–48) is
never constructed.  This theorem evaluates the embedded parser at the
failing inputs of the repository's own tests
(`test_duplicate_map_keys`, `test_duplicate_key_error_location`): both
maps parse successfully with last-writer-wins, including the numeric
equivalence case `1` / `1.0`. -/
theorem claim_C1 :
    parse_dcbor_item defaultEnv "\x7b\"key1\": 1, \"key2\": 2, \"key1\": 3\x7d".toList =
      .ok (.map [(.text "key1", .number (Dec.ofNat 3)),
                 (.text "key2", .number (Dec.ofNat 2))]) ∧
    parse_dcbor_item defaultEnv "\x7b1: \"a\", 1.0: \"b\"\x7d".toList =
      .ok (.map [(.number (Dec.ofNat 1), .text "b")]) :=
  ⟨rfl, rfl⟩

/-! ## Claim C2 -/

/-- C2: `parse_dcbor_item` succeeds iff the source holds exactly one
well-formed item followed only by whitespace/comments: the token stream is
empty exactly when the skip pattern covers the whole source (so "no first
token" means only whitespace/comments); an empty stream yields
`EmptyInput`; success happens exactly when the first token exists and the
item parse consumes the entire stream; and a remaining token attempt
yields `ExtraData` carrying that attempt's span. -/
theorem claim_C2 (env : Env) (src : List Char) :
    (lexAll env src = [] ↔ skipLen src = src.length) ∧
    (lexAll env src = [] → parse_dcbor_item env src = .error .emptyInput) ∧
    ((∃ c, parse_dcbor_item env src = .ok c) ↔
      ∃ t sp rest c, lexAll env src = (.ok t, sp) :: rest ∧
        parseGo env ⟨src.length, src.length⟩ (fuelFor rest) (.itemToken t sp rest) =
          some (.ok (c, []))) ∧
    (∀ t sp rest c att sp2 more,
      lexAll env src = (.ok t, sp) :: rest →
      parseGo env ⟨src.length, src.length⟩ (fuelFor rest) (.itemToken t sp rest) =
        some (.ok (c, (att, sp2) :: more)) →
      parse_dcbor_item env src = .error (.extraData sp2)) := by
  refine ⟨lexAll_eq_nil_iff env src, ?_, ⟨?_, ?_⟩, ?_⟩
  · intro h
    simp [parse_dcbor_item, h, expectTok]
  · rintro ⟨c, hc⟩
    unfold parse_dcbor_item at hc
    split at hc
    · cases hc
    · cases hc
    · rename_i t sp rest heq
      split at hc
      · cases hc
      · cases hc
      · rename_i c' heq2
        cases hc
        exact ⟨t, sp, rest, c, expectTok_eq_ok.mp heq, heq2⟩
      · cases hc
  · rintro ⟨t, sp, rest, c, h1, h2⟩
    refine ⟨c, ?_⟩
    unfold parse_dcbor_item
    rw [h1]
    simp only [expectTok]
    rw [h2]
  · intro t sp rest c att sp2 more h1 h2
    unfold parse_dcbor_item
    rw [h1]
    simp only [expectTok]
    rw [h2]

/-- Witness for C2 at concrete inputs: the empty source raises
`EmptyInput`, and `1 1` raises `ExtraData` with the second `1`'s span. -/
theorem claim_C2_witness :
    parse_dcbor_item defaultEnv "".toList = .error .emptyInput ∧
    parse_dcbor_item defaultEnv "1 1".toList = .error (.extraData ⟨2, 3⟩) := by
  constructor
  · exact (claim_C2 defaultEnv "".toList).2.1 (by rfl)
  · exact (claim_C2 defaultEnv "1 1".toList).2.2.2 (.number (Dec.ofNat 1)) ⟨0, 1⟩
      [(.ok (.number (Dec.ofNat 1)), ⟨2, 3⟩)] (.number (Dec.ofNat 1))
      (.ok (.number (Dec.ofNat 1))) ⟨2, 3⟩ [] (by rfl) (by rfl)

/-! ## Claim C6 -/

/-- C6 (amended): end-of-input at an array loop boundary raises
`UnexpectedEndOfInput`; end-of-input at a map loop boundary raises
`UnmatchedBraces`; for a numeric tag head, end-of-input right after the
inner item raises `UnmatchedParentheses`; but for a *named* tag head the
same end-of-input propagates as `UnexpectedEndOfInput`
(`parse_name_tag` uses `expect_token(lexer)?`, unlike
`parse_number_tag`'s explicit remapping). -/
theorem claim_C6 (env : Env) (eofSpan : Span) (fuel : Nat) :
    (∀ items ac ai, parseGo env eofSpan (fuel + 1) (.arrayLoop items ac ai []) =
      some (.error .unexpectedEndOfInput)) ∧
    (∀ pairs ac ak, parseGo env eofSpan (fuel + 1) (.mapLoop pairs ac ak []) =
      some (.error (.unmatchedBraces eofSpan))) ∧
    (∀ v ts c, parseGo env eofSpan fuel (.item ts) = some (.ok (c, [])) →
      parseGo env eofSpan (fuel + 1) (.numberTag v ts) =
        some (.error (.unmatchedParentheses eofSpan))) ∧
    (∀ nm sp ts c, parseGo env eofSpan fuel (.item ts) = some (.ok (c, [])) →
      parseGo env eofSpan (fuel + 1) (.nameTag nm sp ts) =
        some (.error .unexpectedEndOfInput)) := by
  refine ⟨?_, ?_, ?_, ?_⟩
  · intro items ac ai
    simp [parseGo, expectTok]
  · intro pairs ac ak
    simp [parseGo]
  · intro v ts c h
    simp [parseGo, h, expectTok]
  · intro nm sp ts c h
    simp [parseGo, h, expectTok]

/-- Witness for C6 at concrete frames: an exhausted stream inside an
array, a map, a numeric tag (after the inner item `1`), and a named tag
(after the inner item `1`). -/
theorem claim_C6_witness :
    parseGo defaultEnv ⟨6, 6⟩ 5 (.arrayLoop [] false false []) =
      some (.error .unexpectedEndOfInput) ∧
    parseGo defaultEnv ⟨6, 6⟩ 5 (.mapLoop [] false false []) =
      some (.error (.unmatchedBraces ⟨6, 6⟩)) ∧
    parseGo defaultEnv ⟨3, 3⟩ 5 (.numberTag 1 [(.ok (.number (Dec.ofNat 1)), ⟨2, 3⟩)]) =
      some (.error (.unmatchedParentheses ⟨3, 3⟩)) ∧
    parseGo defaultEnv ⟨3, 3⟩ 5 (.nameTag "a" ⟨0, 2⟩ [(.ok (.number (Dec.ofNat 1)), ⟨2, 3⟩)]) =
      some (.error .unexpectedEndOfInput) :=
  ⟨(claim_C6 defaultEnv ⟨6, 6⟩ 4).1 [] false false,
   (claim_C6 defaultEnv ⟨6, 6⟩ 4).2.1 [] false false,
   (claim_C6 defaultEnv ⟨3, 3⟩ 4).2.2.1 1 [(.ok (.number (Dec.ofNat 1)), ⟨2, 3⟩)]
     (.number (Dec.ofNat 1)) (by rfl),
   (claim_C6 defaultEnv ⟨3, 3⟩ 4).2.2.2 "a" ⟨0, 2⟩
     [(.ok (.number (Dec.ofNat 1)), ⟨2, 3⟩)] (.number (Dec.ofNat 1)) (by rfl)⟩

/-- Counterexample to C6 as stated: `a(1` ends inside an unclosed *named*
tag, and the parser raises `UnexpectedEndOfInput`, not
`UnmatchedParentheses` as the claim asserts for parentheses of either tag
kind. -/
theorem claim_C6_counterexample :
    parse_dcbor_item defaultEnv "a(1".toList = .error .unexpectedEndOfInput :=
  rfl

/-! ## Claim C7 -/

/-- Every error out of the pair-folding loop of `compose_dcbor_map` is the
odd-length sentinel or a fragment's parse error passed through. -/
theorem composeMapPairs_error_provenance (env : Env) :
    ∀ (frags : List String) (acc : List (CBOR × CBOR)) (err : ComposeError),
      composeMapPairs env frags acc = .error err →
      err = .invalidOddMapLength ∨
        ∃ f e, f ∈ frags ∧ parse_dcbor_item env f.toList = .error e ∧
          err = .parseError e
  | [], _, _, h => by simp [composeMapPairs] at h
  | k :: v :: rest, acc, err, h => by
    simp only [composeMapPairs] at h
    split at h
    · rename_i e he
      cases h
      exact Or.inr ⟨k, e, by simp, he, rfl⟩
    · rename_i kc hk
      split at h
      · rename_i e he
        cases h
        exact Or.inr ⟨v, e, by simp, he, rfl⟩
      · rename_i vc hv
        rcases composeMapPairs_error_provenance env rest _ err h with h' | ⟨f, e, hf, he, herr⟩
        · exact Or.inl h'
        · exact Or.inr ⟨f, e, by simp [hf], he, herr⟩
  | [_], _, _, h => by
    simp only [composeMapPairs] at h
    cases h
    exact Or.inl rfl

/-- C7: `compose_dcbor_map` accepts duplicate keys with last-writer-wins
and never raises `DuplicateMapKey` itself: every error it returns is
either the odd-length error or a fragment's own parse error passed
through; `Map::insert` replaces the value of an equivalent existing key in
place; and composing `["1", "2", "1", "3"]` succeeds with `{1: 3}`. -/
theorem claim_C7 :
    (∀ env frags err, compose_dcbor_map env frags = .error err →
      err = .invalidOddMapLength ∨
        ∃ f e, f ∈ frags ∧ parse_dcbor_item env f.toList = .error e ∧
          err = .parseError e) ∧
    (∀ pairs k0 v0 k v, CBOR.beq k0 k = true →
      mapInsert ((k0, v0) :: pairs) k v = (k0, v) :: pairs) ∧
    compose_dcbor_map defaultEnv ["1", "2", "1", "3"] =
      .ok (.map [(.number (Dec.ofNat 1), .number (Dec.ofNat 3))]) := by
  refine ⟨?_, ?_, by rfl⟩
  · intro env frags err h
    unfold compose_dcbor_map at h
    split at h
    · cases h
      exact Or.inl rfl
    · cases hcp : composeMapPairs env frags [] with
      | error e =>
        rw [hcp] at h
        cases h
        exact composeMapPairs_error_provenance env frags [] err hcp
      | ok pairs =>
        rw [hcp] at h
        cases h
  · intro pairs k0 v0 k v hbeq
    simp [mapInsert, hbeq]

/-! ## Claim C10 -/

/-- C10: after a successfully parsed first item, the top-level check only
asks whether the lexer yields another attempt and discards whether that
attempt was itself a lexing error: even when the remaining attempt is an
`Err`, `parse_dcbor_item` reports `ExtraData` with that attempt's span,
and never `UnrecognizedToken`. -/
theorem claim_C10 (env : Env) (src : List Char) :
    ∀ t sp rest c e sp2 more,
      lexAll env src = (.ok t, sp) :: rest →
      parseGo env ⟨src.length, src.length⟩ (fuelFor rest) (.itemToken t sp rest) =
        some (.ok (c, (.error e, sp2) :: more)) →
      parse_dcbor_item env src = .error (.extraData sp2) ∧
        ∀ sp3, parse_dcbor_item env src ≠ .error (.unrecognizedToken sp3) := by
  intro t sp rest c e sp2 more h1 h2
  have hmain : parse_dcbor_item env src = .error (.extraData sp2) := by
    unfold parse_dcbor_item
    rw [h1]
    simp only [expectTok]
    rw [h2]
  refine ⟨hmain, fun sp3 hcontra => ?_⟩
  rw [hmain] at hcontra
  cases hcontra

/-- Witness for C10 at `1 q`: the trailing `q` lexes to an error attempt,
yet the result is `ExtraData` over its span `2..3`. -/
theorem claim_C10_witness :
    parse_dcbor_item defaultEnv "1 q".toList = .error (.extraData ⟨2, 3⟩) ∧
      ∀ sp3, parse_dcbor_item defaultEnv "1 q".toList ≠ .error (.unrecognizedToken sp3) :=
  claim_C10 defaultEnv "1 q".toList (.number (Dec.ofNat 1)) ⟨0, 1⟩
    [(.error (.unrecognizedToken ⟨0, 0⟩), ⟨2, 3⟩)] (.number (Dec.ofNat 1))
    (.unrecognizedToken ⟨0, 0⟩) ⟨2, 3⟩ [] (by rfl) (by rfl)

/-! ## Lexing a source that is exactly one token -/

theorem toList_mk (l : List Char) : (String.mk l).toList = l := rfl

theorem lexAllF_stop (env : Env) (src : List Char) (fuel pos : Nat)
    (h : src.length ≤ pos) : lexAllF env src (fuel + 1) pos = [] := by
  simp only [lexAllF]
  rw [List.drop_eq_nil_iff.mpr h]
  rfl

/-- A source whose head is no whitespace, `/` or `#` has no leading skip. -/
theorem skip_none_of_head {c : Char} {r : List Char}
    (h1 : isWsChar c = false) (h2 : c ≠ '/') (h3 : c ≠ '#') :
    matchLen isSkipMatch (c :: r) = none := by
  rw [matchLen_eq_none]
  intro m _
  cases m with
  | zero => rfl
  | succ m =>
    simp only [List.take_succ_cons, isSkipMatch, skipScan, h1]
    simp [h2, h3]

/-- When exactly one pattern matches the whole source, it is the winner at
full length. -/
theorem winner_of_unique {l : List Char} {p : PatId} (hne : l ≠ [])
    (hp : patRec p l = true) (huniq : ∀ q, patRec q l = true → q = p) :
    winner l = some (p, l.length) := by
  have hml : matchLen (patRec p) l = some l.length := by
    rw [matchLen_eq_some]
    exact ⟨Nat.le_refl _, by simpa [List.take_length] using hp,
      fun m h1 h2 => absurd (Nat.lt_of_lt_of_le h1 h2) (Nat.lt_irrefl _)⟩
  cases hw : winner l with
  | none =>
    exfalso
    have hall := (foldl_winnerStep_none patList none hw).2 p (by cases p <;> simp [patList])
    rw [hall] at hml
    cases hml
  | some pn =>
    rcases pn with ⟨p', n'⟩
    have h1 : n' ≤ l.length := matchLen_le (winner_matchLen hw)
    have h2 : l.length ≤ n' := winner_max hw p _ hml
    have hn : n' = l.length := Nat.le_antisymm h1 h2
    subst hn
    have hm' := winner_matchLen hw
    rw [matchLen_eq_some] at hm'
    have hp' : patRec p' l = true := by simpa [List.take_length] using hm'.2.1
    rw [huniq p' hp']

/-- Such a source lexes to exactly that one token over the full span. -/
theorem lexAll_single (env : Env) {l : List Char} {p : PatId} (hne : l ≠ [])
    (hskip : matchLen isSkipMatch l = none)
    (hwin : winner l = some (p, l.length)) :
    lexAll env l = [(.ok (buildToken env p l ⟨0, l.length⟩), ⟨0, l.length⟩)] := by
  unfold lexAll
  cases l with
  | nil => exact absurd rfl hne
  | cons c r =>
    have hsk : skipLen (c :: r) = 0 := by simp [skipLen, hskip]
    have hstop : lexAllF env (c :: r) ((c :: r).length) ((c :: r).length) = [] := by
      cases hlen : (c :: r).length with
      | zero => simp at hlen
      | succ m =>
        rw [← hlen]
        conv in (c :: r).length => rw [hlen]
        exact lexAllF_stop env (c :: r) m (c :: r).length (Nat.le_refl _)
    simp only [List.length_cons, lexAllF, List.drop_zero, hsk, Nat.add_zero, Nat.zero_add,
      hwin, List.take_length]
    simpa using hstop

/-! ## First characters of the token patterns -/

theorem isDigitChar_of_nonzero {c : Char} (h : isNonzeroDigit c = true) :
    isDigitChar c = true := by
  simp only [isNonzeroDigit, Bool.and_eq_true, decide_eq_true_eq] at h
  simp only [isDigitChar, Bool.and_eq_true, decide_eq_true_eq]
  exact ⟨le_trans (by decide) h.1, h.2⟩

theorem not_identStart_of_digit {c : Char} (h : isDigitChar c = true) :
    isIdentStart c = false := by
  simp only [isDigitChar, Bool.and_eq_true, decide_eq_true_eq] at h
  simp only [isIdentStart, isAlphaChar, Bool.or_eq_true, Bool.and_eq_true,
    decide_eq_true_eq, not_or]
  simp only [Bool.or_eq_false_iff, Bool.and_eq_false_iff, decide_eq_false_iff_not]
  refine ⟨⟨?_, ?_⟩, ?_⟩
  · exact Or.inl (fun hc => absurd (le_trans hc h.2) (by decide))
  · exact Or.inl (fun hc => absurd (le_trans hc h.2) (by decide))
  · intro hc
    subst hc
    exact absurd h.2 (by decide)

/-- The characters a pattern's match can start with. -/
def patHead : PatId → Char → Bool
  | .pFalse, c => c = 'f'
  | .pTrue, c => c = 't'
  | .pBraceOpen, c => c = '{'
  | .pBraceClose, c => c = '}'
  | .pBracketOpen, c => c = '['
  | .pBracketClose, c => c = ']'
  | .pParenOpen, c => c = '('
  | .pParenClose, c => c = ')'
  | .pColon, c => c = ':'
  | .pComma, c => c = ','
  | .pNull, c => c = 'n'
  | .pNaN, c => c = 'N'
  | .pInfinity, c => c = 'I'
  | .pNegInfinity, c => c = '-'
  | .pHex, c => c = 'h'
  | .pB64, c => c = 'b'
  | .pDate, c => isDigitChar c
  | .pNumber, c => isDigitChar c || c = '-'
  | .pString, c => c = '"'
  | .pTagValue, c => isDigitChar c
  | .pTagName, c => isIdentStart c
  | .pKVNum, c => c = '\''
  | .pKVName, c => c = '\''
  | .pUnit, c => c = 'U'
  | .pUR, c => c = 'u'

/-- Every full match is nonempty and starts with a character the pattern's
head predicate allows. -/
theorem patRec_head {q : PatId} {l : List Char} (h : patRec q l = true) :
    ∃ c r, l = c :: r ∧ patHead q c = true := by
  cases q <;> simp only [patRec] at h
  case pFalse => simp only [beq_iff_eq] at h; subst h; exact ⟨'f', _, rfl, by decide⟩
  case pTrue => simp only [beq_iff_eq] at h; subst h; exact ⟨'t', _, rfl, by decide⟩
  case pBraceOpen => simp only [beq_iff_eq] at h; subst h; exact ⟨'{', _, rfl, by decide⟩
  case pBraceClose => simp only [beq_iff_eq] at h; subst h; exact ⟨'}', _, rfl, by decide⟩
  case pBracketOpen => simp only [beq_iff_eq] at h; subst h; exact ⟨'[', _, rfl, by decide⟩
  case pBracketClose => simp only [beq_iff_eq] at h; subst h; exact ⟨']', _, rfl, by decide⟩
  case pParenOpen => simp only [beq_iff_eq] at h; subst h; exact ⟨'(', _, rfl, by decide⟩
  case pParenClose => simp only [beq_iff_eq] at h; subst h; exact ⟨')', _, rfl, by decide⟩
  case pColon => simp only [beq_iff_eq] at h; subst h; exact ⟨':', _, rfl, by decide⟩
  case pComma => simp only [beq_iff_eq] at h; subst h; exact ⟨',', _, rfl, by decide⟩
  case pNull => simp only [beq_iff_eq] at h; subst h; exact ⟨'n', _, rfl, by decide⟩
  case pNaN => simp only [beq_iff_eq] at h; subst h; exact ⟨'N', _, rfl, by decide⟩
  case pInfinity => simp only [beq_iff_eq] at h; subst h; exact ⟨'I', _, rfl, by decide⟩
  case pNegInfinity => simp only [beq_iff_eq] at h; subst h; exact ⟨'-', _, rfl, by decide⟩
  case pHex =>
    unfold isHexTok at h
    split at h
    · rename_i r; exact ⟨'h', _, rfl, by decide⟩
    · cases h
  case pB64 =>
    unfold isB64Tok at h
    split at h
    · rename_i r; exact ⟨'b', _, rfl, by decide⟩
    · cases h
  case pDate =>
    unfold isDateTok at h
    split at h
    · rename_i y1 y2 y3 y4 m1 m2 d1 d2 rest
      simp only [Bool.and_eq_true] at h
      exact ⟨y1, _, rfl, h.1.1.1.1.1.1.1.1⟩
    · cases h
  case pNumber =>
    unfold isNumberTok at h
    split at h
    · rename_i r
      exact ⟨'-', r, rfl, by simp [patHead]⟩
    · rename_i hne
      unfold numIntPart at h
      split at h
      · rename_i r
        exact ⟨'0', r, rfl, by decide⟩
      · rename_i c r hne0
        simp only [Bool.and_eq_true] at h
        exact ⟨c, r, rfl, by simp [patHead, isDigitChar_of_nonzero h.1]⟩
      · cases h
  case pString =>
    unfold isStringTok at h
    split at h
    · cases h
    · rename_i c r
      split at h
      · rename_i hq
        exact ⟨c, r, rfl, by simp [patHead, hq]⟩
      · cases h
  case pTagValue =>
    unfold isTagValueTok at h
    split at h
    · rename_i r; exact ⟨'0', _, rfl, by decide⟩
    · rename_i c r hne0
      simp only [Bool.and_eq_true] at h
      exact ⟨c, r, rfl, by simp [patHead, isDigitChar_of_nonzero h.1]⟩
    · cases h
  case pTagName =>
    unfold isTagNameTok at h
    split at h
    · rename_i c r
      simp only [Bool.and_eq_true] at h
      exact ⟨c, r, rfl, h.1⟩
    · cases h
  case pKVNum =>
    unfold isKVNumTok at h
    split at h
    · rename_i r; exact ⟨'\'', _, rfl, by decide⟩
    · rename_i c r; exact ⟨'\'', _, rfl, by decide⟩
    · cases h
  case pKVName =>
    unfold isKVNameTok at h
    split at h
    · exact ⟨'\'', _, rfl, by decide⟩
    · rename_i c r; exact ⟨'\'', _, rfl, by decide⟩
    · cases h
  case pUnit => simp only [beq_iff_eq] at h; subst h; exact ⟨'U', _, rfl, by decide⟩
  case pUR =>
    unfold isURTok at h
    split at h
    · rename_i c r; exact ⟨'u', _, rfl, by decide⟩
    · cases h

/-! ## String-literal facts -/

theorem getLast?_cons_of_ne_nil {x : Char} {r : List Char} (h : r ≠ []) :
    (x :: r).getLast? = r.getLast? := by
  cases r with
  | nil => exact absurd rfl h
  | cons y ys => simp [List.getLast?_cons_cons]

theorem strBody_ne_nil (l : List Char) (h : strBody l = true) : l ≠ [] := by
  intro he
  subst he
  rw [strBody.eq_def] at h
  cases h

theorem strBody_cons (c : Char) (r : List Char) :
    strBody (c :: r) =
      (if c = '"' then r.isEmpty
       else if c = '\\' then
         (match r with
          | [] => false
          | e :: r2 =>
            if isSimpleEsc e then strBody r2
            else if e = 'u' then
              (match r2 with
               | a :: b :: c2 :: d :: r3 =>
                 isHexDigitChar a && isHexDigitChar b && isHexDigitChar c2 &&
                   isHexDigitChar d && strBody r3
               | _ => false)
            else false)
       else if !isControlChar c then strBody r else false) := by
  rw [strBody.eq_def]

theorem strBody_last : ∀ (l : List Char), strBody l = true → l.getLast? = some '"'
  | [], h => by rw [strBody.eq_def] at h; cases h
  | c :: r, h => by
    rw [strBody_cons] at h
    by_cases hq : c = '"'
    · rw [if_pos hq] at h
      rw [List.isEmpty_iff] at h
      subst h hq
      rfl
    · rw [if_neg hq] at h
      by_cases hbs : c = '\\'
      · rw [if_pos hbs] at h
        rcases r with _ | ⟨e, r2⟩
        · simp at h
        · simp only [] at h
          by_cases hesc : isSimpleEsc e = true
          · rw [if_pos hesc] at h
            have hlast := strBody_last r2 h
            rw [getLast?_cons_of_ne_nil (by simp : (e :: r2) ≠ []),
              getLast?_cons_of_ne_nil (strBody_ne_nil r2 h)]
            exact hlast
          · rw [if_neg hesc] at h
            by_cases hu : e = 'u'
            · rw [if_pos hu] at h
              rcases r2 with _ | ⟨a, _ | ⟨b, _ | ⟨c2, _ | ⟨d, r3⟩⟩⟩⟩
              · simp at h
              · simp at h
              · simp at h
              · simp at h
              · simp only [Bool.and_eq_true] at h
                have hlast := strBody_last r3 h.2
                rw [getLast?_cons_of_ne_nil (by simp : (e :: a :: b :: c2 :: d :: r3) ≠ []),
                  getLast?_cons_of_ne_nil (by simp : (a :: b :: c2 :: d :: r3) ≠ []),
                  getLast?_cons_of_ne_nil (by simp : (b :: c2 :: d :: r3) ≠ []),
                  getLast?_cons_of_ne_nil (by simp : (c2 :: d :: r3) ≠ []),
                  getLast?_cons_of_ne_nil (by simp : (d :: r3) ≠ []),
                  getLast?_cons_of_ne_nil (strBody_ne_nil r3 h.2)]
                exact hlast
            · rw [if_neg hu] at h
              cases h
      · rw [if_neg hbs] at h
        split at h
        · have hlast := strBody_last r h
          rw [getLast?_cons_of_ne_nil (strBody_ne_nil r h)]
          exact hlast
        · cases h

theorem isStringTok_quote (r : List Char) : isStringTok ('"' :: r) = strBody r := by
  rw [isStringTok.eq_def]
  simp

/-! ## Claim C4 -/

/-- C4: for every double-quoted string literal the lexer accepts,
`parse_item` produces the text obtained by stripping exactly the outer
quotes; backslash escape sequences are left verbatim in the text (the
lexer does not unescape and `parse_string` only strips the quotes). -/
theorem claim_C4 (env : Env) (l : List Char) (h : isStringTok l = true) :
    parse_dcbor_item env l = .ok (.text (String.mk ((l.drop 1).dropLast))) := by
  obtain ⟨body, rfl⟩ : ∃ body, l = '"' :: body := by
    unfold isStringTok at h
    split at h
    · cases h
    · rename_i c r
      split at h
      · rename_i hq
        subst hq
        exact ⟨r, rfl⟩
      · cases h
  have hbody : strBody body = true := by
    rw [isStringTok_quote] at h
    exact h
  have hne : ('"' :: body) ≠ [] := by simp
  have hskip : matchLen isSkipMatch ('"' :: body) = none :=
    skip_none_of_head (by decide) (by decide) (by decide)
  have huniq : ∀ q, patRec q ('"' :: body) = true → q = .pString := by
    intro q hq
    rcases patRec_head hq with ⟨c, r, hl, hh⟩
    injection hl with h1 h2
    subst h1
    cases q <;> first
      | rfl
      | (exfalso; revert hh; decide)
  have hwin := winner_of_unique (p := .pString) hne h huniq
  have hlex := lexAll_single env hne hskip hwin
  have hlast : ('"' :: body).getLast? = some '"' := by
    rw [getLast?_cons_of_ne_nil (strBody_ne_nil body hbody)]
    exact strBody_last body hbody
  have hbuild : buildToken env .pString ('"' :: body) ⟨0, ('"' :: body).length⟩ =
      .string (String.mk ('"' :: body)) := rfl
  have hgo : parseGo env ⟨('"' :: body).length, ('"' :: body).length⟩ (fuelFor [])
      (.itemToken (.string (String.mk ('"' :: body))) ⟨0, ('"' :: body).length⟩ []) =
      some (.ok (.text (String.mk ((('"' :: body).drop 1).dropLast)), [])) := by
    show (match parseString (String.mk ('"' :: body)) ⟨0, ('"' :: body).length⟩ with
      | Except.ok c => some (Except.ok (c, ([] : TS)))
      | Except.error e => some (Except.error e)) = _
    unfold parseString
    rw [if_pos ⟨rfl, show (String.mk ('"' :: body)).toList.getLast? = some '"' from hlast⟩]
    rfl
  unfold parse_dcbor_item
  rw [hlex]
  simp only [expectTok]
  rw [hbuild, hgo]

theorem dropLast_append_single (a : Char) : ∀ (l : List Char), (l ++ [a]).dropLast = l
  | [] => rfl
  | [_] => rfl
  | b :: c :: l => by
      have ih := dropLast_append_single a (c :: l)
      show b :: ((c :: l ++ [a]).dropLast) = b :: c :: l
      rw [ih]

/-- C8: a single-quoted numeric literal `'N'` (a KnownValueNumber token whose
digits fit in 64 bits) parses as the known value N, i.e. CBOR tag 40000
wrapping the unsigned number N; the bare name `Unit` parses as known value 0;
and the empty-name form `''` parses as known value 0 whenever the known-value
registry resolves the empty name to 0. -/
theorem claim_C8 (env : Env) (ds : List Char)
    (htok : isKVNumTok ('\'' :: ds ++ ['\'']) = true)
    (hbound : digitsToNat ds < 2 ^ 64) :
    parse_dcbor_item env ('\'' :: ds ++ ['\'']) =
      .ok (.tagged 40000 (.number (Dec.ofNat (digitsToNat ds)))) ∧
    parse_dcbor_item env "Unit".toList = .ok (.tagged 40000 (.number (Dec.ofNat 0))) ∧
    (env.knownValueForName "" = some 0 →
      parse_dcbor_item env "''".toList = .ok (.tagged 40000 (.number (Dec.ofNat 0)))) := by
  refine ⟨?_, by rfl, ?_⟩
  · rcases ds with _ | ⟨d, tail⟩
    · exact absurd htok (by decide)
    · have hdigit : isDigitChar d = true := by
        unfold isKVNumTok at htok
        split at htok
        · rename_i r heq
          injection heq with e1 e2
          injection e2 with e3 e4
          rw [e3]
          decide
        · rename_i c r hne0 heq
          injection heq with e1 e2
          injection e2 with e3 e4
          have hand := htok
          rw [Bool.and_eq_true] at hand
          rw [← e3] at hand
          exact isDigitChar_of_nonzero hand.1
        · cases htok
      have hkvname : isKVNameTok ('\'' :: d :: (tail ++ ['\''])) = false := by
        unfold isKVNameTok
        split
        · rename_i heq
          exfalso
          have : d :: (tail ++ ['\'']) = ['\''] := by
            injection heq with e1 e2
          rw [List.cons_eq_cons] at this
          exact absurd (this.2) (by simp)
        · rename_i c r heq
          injection heq with e1 e2
          injection e2 with e3 e4
          rw [← e3]
          rw [not_identStart_of_digit hdigit]
          rfl
        · rfl
      have hne : ('\'' :: d :: (tail ++ ['\''])) ≠ [] := by simp
      have huniq : ∀ q, patRec q ('\'' :: d :: (tail ++ ['\''])) = true → q = .pKVNum := by
        intro q hq
        rcases patRec_head hq with ⟨c, r, hl, hh⟩
        have hc : c = '\'' := by injection hl with h1 _; exact h1.symm
        subst hc
        cases q <;> first
          | rfl
          | (exfalso; revert hh; decide)
          | (exact absurd (show isKVNameTok ('\'' :: d :: (tail ++ ['\''])) = true from hq)
              (by simp [hkvname]))
      have hskip : matchLen isSkipMatch ('\'' :: d :: (tail ++ ['\''])) = none :=
        skip_none_of_head (by decide) (by decide) (by decide)
      have hwin := winner_of_unique (p := .pKVNum) hne htok huniq
      have hlex := lexAll_single env hne hskip hwin
      have hslice : ((('\'' :: d :: (tail ++ ['\''])).drop 1).dropLast) = d :: tail := by
        exact dropLast_append_single '\'' (d :: tail)
      have hbuild : buildToken env .pKVNum ('\'' :: d :: (tail ++ ['\'']))
          ⟨0, ('\'' :: d :: (tail ++ ['\''])).length⟩ =
          .knownValueNumber (.ok (digitsToNat (d :: tail))) := by
        unfold buildToken
        rw [hslice]
        rw [if_pos hbound]
      have hgo : parseGo env ⟨('\'' :: d :: (tail ++ ['\''])).length,
          ('\'' :: d :: (tail ++ ['\''])).length⟩ (fuelFor [])
          (.itemToken (.knownValueNumber (.ok (digitsToNat (d :: tail))))
            ⟨0, ('\'' :: d :: (tail ++ ['\''])).length⟩ []) =
          some (.ok (knownValueCBOR (digitsToNat (d :: tail)), [])) := rfl
      unfold parse_dcbor_item
      simp only [List.cons_append]
      rw [hlex]
      simp only [expectTok]
      rw [hbuild, hgo]
      rfl
  · intro henv
    have hgo : parseGo env ⟨2, 2⟩ (fuelFor []) (.itemToken (.knownValueName "") ⟨0, 2⟩ []) =
        some (.ok (knownValueCBOR 0, [])) := by
      show (match env.knownValueForName "" with
        | some k => some (Except.ok (knownValueCBOR k, ([] : TS)))
        | none => some (Except.error (Error.unknownKnownValueName "" ⟨0 + 1, 2 - 1⟩))) = _
      rw [henv]
    unfold parse_dcbor_item
    rw [show lexAll env "''".toList = [(.ok (.knownValueName ""), ⟨0, 2⟩)] from rfl]
    simp only [expectTok]
    rw [show "''".toList.length = 2 from rfl]
    rw [hgo]
    rfl

theorem claim_C8_witness :
    isKVNumTok ('\'' :: ['4', '2'] ++ ['\'']) = true ∧
    digitsToNat ['4', '2'] < 2 ^ 64 ∧
    (parse_dcbor_item unitEnv ('\'' :: ['4', '2'] ++ ['\'']) =
        .ok (.tagged 40000 (.number (Dec.ofNat (digitsToNat ['4', '2'])))) ∧
      parse_dcbor_item unitEnv "Unit".toList = .ok (.tagged 40000 (.number (Dec.ofNat 0))) ∧
      (unitEnv.knownValueForName "" = some 0 →
        parse_dcbor_item unitEnv "''".toList = .ok (.tagged 40000 (.number (Dec.ofNat 0))))) :=
  ⟨by decide, by decide, claim_C8 unitEnv ['4', '2'] (by decide) (by decide)⟩

theorem claim_C4_witness :
    isStringTok ['"', 'a', '\\', 'n', 'b', '"'] = true ∧
    parse_dcbor_item defaultEnv ['"', 'a', '\\', 'n', 'b', '"'] =
      .ok (.text (String.mk (((['"', 'a', '\\', 'n', 'b', '"'] : List Char).drop 1).dropLast))) :=
  ⟨by decide, claim_C4 defaultEnv ['"', 'a', '\\', 'n', 'b', '"'] (by decide)⟩

/-! ## Claim C5 -/

/-- C5: the date-literal pattern is declared before the number pattern
(`patList.indexOf`), and on `2023-01-01` the number pattern matches only the
4-character prefix `2023` while the date pattern matches all 10 characters, so
the winner is a single DateLiteral token and `parse_item` yields the
tag-1-wrapped date value; the bare digit run `2023` still parses as the
number 2023. -/
theorem claim_C5 (env : Env) (d : Dec)
    (hdate : env.dateFromString "2023-01-01" = some d) :
    patList.indexOf .pDate < patList.indexOf .pNumber ∧
    matchLen (patRec .pNumber) "2023-01-01".toList = some 4 ∧
    winner "2023-01-01".toList = some (.pDate, 10) ∧
    lexAll env "2023-01-01".toList = [(.ok (.dateLiteral (.ok d)), ⟨0, 10⟩)] ∧
    parse_dcbor_item env "2023-01-01".toList = .ok (.tagged 1 (.number d)) ∧
    parse_dcbor_item env "2023".toList = .ok (.number (Dec.ofNat 2023)) := by
  have hne : ("2023-01-01".toList : List Char) ≠ [] := by decide
  have hskip : matchLen isSkipMatch "2023-01-01".toList = none := by decide
  have htok : isDateTok "2023-01-01".toList = true := by decide
  have huniq : ∀ q, patRec q "2023-01-01".toList = true → q = .pDate := by
    intro q
    cases q <;> decide
  have hwin := winner_of_unique (p := .pDate) hne htok huniq
  have hlex := lexAll_single env hne hskip hwin
  have hbuild : buildToken env .pDate "2023-01-01".toList ⟨0, "2023-01-01".toList.length⟩ =
      .dateLiteral (.ok d) := by
    unfold buildToken
    rw [show String.mk "2023-01-01".toList = "2023-01-01" from rfl, hdate]
  refine ⟨by decide, by decide, ?_, ?_, ?_, by rfl⟩
  · rw [show (10 : Nat) = "2023-01-01".toList.length from rfl]
    exact hwin
  · rw [hlex, hbuild]
    rfl
  · unfold parse_dcbor_item
    rw [hlex]
    simp only [expectTok]
    rw [hbuild]
    rfl

theorem claim_C5_witness :
    dateEnv.dateFromString "2023-01-01" = some (Dec.ofNat 1672531200) ∧
    (patList.indexOf PatId.pDate < patList.indexOf PatId.pNumber ∧
     matchLen (patRec .pNumber) "2023-01-01".toList = some 4 ∧
     winner "2023-01-01".toList = some (.pDate, 10) ∧
     lexAll dateEnv "2023-01-01".toList =
       [(.ok (.dateLiteral (.ok (Dec.ofNat 1672531200))), ⟨0, 10⟩)] ∧
     parse_dcbor_item dateEnv "2023-01-01".toList =
       .ok (.tagged 1 (.number (Dec.ofNat 1672531200))) ∧
     parse_dcbor_item dateEnv "2023".toList = .ok (.number (Dec.ofNat 2023))) :=
  ⟨rfl, claim_C5 dateEnv (Dec.ofNat 1672531200) rfl⟩

/-! ## Claim C9 -/

theorem lineStartIn_of_countNl_zero : ∀ t : List Char, countNl t = 0 → lineStartIn t = 0
  | [], _ => rfl
  | c :: t, h => by
      unfold countNl at h
      rw [List.countP_cons] at h
      by_cases hc : c = '\n'
      · exfalso
        rw [if_pos (by simp [hc])] at h
        omega
      · rw [if_neg (by simp [hc])] at h
        have h1 : countNl t = 0 := by unfold countNl; omega
        simp [lineStartIn, h1, hc]

theorem walkLineAux_spec (start : Nat) :
    ∀ (l : List Char) (idx ln ls : Nat),
    walkLineAux start l idx ln ls =
      (ln + countNl (l.take (start - idx)),
       if countNl (l.take (start - idx)) = 0 then ls
       else idx + lineStartIn (l.take (start - idx))) := by
  intro l
  induction l with
  | nil => intro idx ln ls; simp [walkLineAux, countNl]
  | cons c rest ih =>
    intro idx ln ls
    by_cases hle : start ≤ idx
    · rw [Nat.sub_eq_zero_of_le hle]
      simp [walkLineAux, hle, countNl]
    · have h1 : start - idx = (start - (idx + 1)) + 1 := by omega
      rw [h1, List.take_succ_cons]
      by_cases hc : c = '\n'
      · rw [show walkLineAux start (c :: rest) idx ln ls =
              walkLineAux start rest (idx + 1) (ln + 1) (idx + 1) by
            simp [walkLineAux, hle, hc]]
        rw [ih]
        subst hc
        by_cases h0 : countNl (rest.take (start - (idx + 1))) = 0
        · rw [if_pos h0]
          have hcn : countNl ('\n' :: rest.take (start - (idx + 1))) =
              countNl (rest.take (start - (idx + 1))) + 1 := by
            unfold countNl; rw [List.countP_cons]; simp
          rw [hcn, if_neg (by omega)]
          rw [show lineStartIn ('\n' :: rest.take (start - (idx + 1))) = 1 by
            simp [lineStartIn, h0]]
          refine Prod.ext ?_ ?_ <;> simp <;> omega
        · rw [if_neg h0]
          have hcn : countNl ('\n' :: rest.take (start - (idx + 1))) =
              countNl (rest.take (start - (idx + 1))) + 1 := by
            unfold countNl; rw [List.countP_cons]; simp
          rw [hcn, if_neg (by omega)]
          rw [show lineStartIn ('\n' :: rest.take (start - (idx + 1))) =
              1 + lineStartIn (rest.take (start - (idx + 1))) by
            simp [lineStartIn, h0]]
          refine Prod.ext ?_ ?_ <;> simp <;> omega
      · rw [show walkLineAux start (c :: rest) idx ln ls =
              walkLineAux start rest (idx + 1) ln ls by
            simp [walkLineAux, hle, hc]]
        rw [ih]
        have hcn : countNl (c :: rest.take (start - (idx + 1))) =
            countNl (rest.take (start - (idx + 1))) := by
          unfold countNl; rw [List.countP_cons]; simp [hc]
        rw [hcn]
        by_cases h0 : countNl (rest.take (start - (idx + 1))) = 0
        · rw [if_pos h0, if_pos h0]
        · rw [if_neg h0, if_neg h0]
          rw [show lineStartIn (c :: rest.take (start - (idx + 1))) =
              1 + lineStartIn (rest.take (start - (idx + 1))) by
            simp [lineStartIn, h0]]
          refine Prod.ext ?_ ?_ <;> simp <;> omega

theorem formatMessage_spec (msg : String) (src : List Char) (sp : Span) :
    formatMessage msg src sp =
      "line " ++ toString (1 + countNl (src.take sp.start)) ++ ": " ++ msg ++ "\n"
        ++ (linesOf src).getD (countNl (src.take sp.start)) "" ++ "\n"
        ++ String.mk (List.replicate (sp.start - lineStartIn (src.take sp.start)) ' '
            ++ List.replicate (max (sp.stop - sp.start) 1) '^') := by
  unfold formatMessage
  rw [walkLineAux_spec]
  simp only [Nat.sub_zero]
  by_cases h0 : countNl (src.take sp.start) = 0
  · simp only [if_pos h0]
    rw [lineStartIn_of_countNl_zero _ h0]
    simp [Nat.add_sub_cancel_left]
  · simp only [if_neg h0]
    simp [Nat.add_sub_cancel_left]

/-- C9: for every error and every source, `full_message` renders exactly the
three-line form "line N: message \n line-text \n caret-line" where N is
1-based (one more than the number of line breaks before the span start), the
line text is the source line containing the span start, the caret line leads
with as many spaces as the offset of the span start from the start of that
line and carries max(stop - start, 1) carets; and `UnexpectedEndOfInput`
uses the span [len, len). -/
theorem claim_C9 (e : Error) (src : List Char) :
    fullMessage e src =
      "line " ++ toString (1 + countNl (src.take (errSpanUsed e src.length).start)) ++ ": "
        ++ errorMessage e ++ "\n"
        ++ (linesOf src).getD (countNl (src.take (errSpanUsed e src.length).start)) "" ++ "\n"
        ++ String.mk
            (List.replicate
              ((errSpanUsed e src.length).start -
                lineStartIn (src.take (errSpanUsed e src.length).start)) ' ' ++
             List.replicate
              (max ((errSpanUsed e src.length).stop - (errSpanUsed e src.length).start) 1) '^') ∧
    errSpanUsed Error.unexpectedEndOfInput src.length = ⟨src.length, src.length⟩ :=
  ⟨formatMessage_spec (errorMessage e) src (errSpanUsed e src.length), rfl⟩

/-! ## Claim C3: partial-parse / prefix coherence

`parseGo_suffix`: a successful parse leaves a suffix of its token stream.
`parseGo_mono`: more fuel never changes a `some` result.
`parseGo_fuel`: `pcCost` fuel suffices (so the entry points' `fuelFor` does).
`parseGo_frame`: a successful parse is insensitive to the tokens after its
leftover and to the end-of-input span: replacing them replays the same value.
`lexAllF_take`/`lexAll_take`: truncating the source at the start of a lexed
token keeps exactly the tokens before it. -/

theorem parseGo_suffix (env : Env) (eofSpan : Span) :
    ∀ (fuel : Nat) (pc : PC) (c : CBOR) (rest : TS),
      parseGo env eofSpan fuel pc = some (.ok (c, rest)) → rest <:+ pc.ts
  | 0, _, _, _, h => by simp [parseGo] at h
  | fuel + 1, pc, c, rest, h => by
    cases pc with
    | item ts =>
      show rest <:+ ts
      rcases ts with _ | ⟨⟨att, sp0⟩, rest0⟩
      · simp [parseGo, expectTok] at h
      · cases att with
        | error e => simp [parseGo, expectTok] at h
        | ok t =>
          have h' : parseGo env eofSpan fuel (.itemToken t sp0 rest0) = some (.ok (c, rest)) := by
            simpa [parseGo, expectTok] using h
          exact (parseGo_suffix env eofSpan fuel _ _ _ h').trans (List.suffix_cons _ _)
    | itemToken t sp ts =>
      show rest <:+ ts
      simp only [parseGo] at h
      repeat' split at h
      all_goals
        first
          | (simp at h; done)
          | (simp only [Option.some.injEq, Except.ok.injEq, Prod.mk.injEq] at h
             obtain ⟨h1, rfl⟩ := h
             exact List.suffix_rfl)
          | exact parseGo_suffix env eofSpan fuel _ _ _ h
    | numberTag v ts =>
      show rest <:+ ts
      simp only [parseGo] at h
      split at h
      · (simp at h; done)
      · (simp at h; done)
      · rename_i c0 rest1 hA
        split at h
        all_goals try (simp at h; done)
        rename_i sp1 rest2 hB
        simp only [Option.some.injEq, Except.ok.injEq, Prod.mk.injEq] at h
        obtain ⟨h1, rfl⟩ := h
        have h3 := parseGo_suffix env eofSpan fuel _ _ _ hA
        rw [expectTok_eq_ok.mp hB] at h3
        exact (List.suffix_cons _ _).trans h3
    | nameTag nm sp ts =>
      show rest <:+ ts
      simp only [parseGo] at h
      split at h
      · (simp at h; done)
      · (simp at h; done)
      · rename_i c0 rest1 hA
        split at h
        all_goals try (simp at h; done)
        · rename_i sp1 rest2 hB
          split at h
          all_goals try (simp at h; done)
          simp only [Option.some.injEq, Except.ok.injEq, Prod.mk.injEq] at h
          obtain ⟨h1, rfl⟩ := h
          have h3 := parseGo_suffix env eofSpan fuel _ _ _ hA
          rw [expectTok_eq_ok.mp hB] at h3
          exact (List.suffix_cons _ _).trans h3
    | arrayLoop items ac ai ts =>
      show rest <:+ ts
      rcases ts with _ | ⟨⟨att, sp0⟩, rest0⟩
      · simp [parseGo, expectTok] at h
      · cases att with
        | error e => simp [parseGo, expectTok] at h
        | ok t =>
          simp only [parseGo, expectTok] at h
          repeat' split at h
          all_goals
            first
              | (simp at h; done)
              | (simp only [Option.some.injEq, Except.ok.injEq, Prod.mk.injEq] at h
                 obtain ⟨h1, rfl⟩ := h
                 exact List.suffix_cons _ _)
              | exact (parseGo_suffix env eofSpan fuel _ _ _ h).trans (List.suffix_cons _ _)
              | exact ((parseGo_suffix env eofSpan fuel _ _ _ h).trans
                        (parseGo_suffix env eofSpan fuel _ _ _ (by assumption))).trans
                       (List.suffix_cons _ _)
    | mapLoop pairs ac ak ts =>
      show rest <:+ ts
      rcases ts with _ | ⟨⟨att, sp0⟩, rest0⟩
      · simp [parseGo] at h
      · cases att with
        | error e => simp [parseGo] at h
        | ok t =>
          simp only [parseGo] at h
          repeat' split at h
          all_goals
            first
              | (simp at h; done)
              | (simp only [Option.some.injEq, Except.ok.injEq, Prod.mk.injEq] at h
                 obtain ⟨h1, rfl⟩ := h
                 exact List.suffix_cons _ _)
              | exact (parseGo_suffix env eofSpan fuel _ _ _ h).trans (List.suffix_cons _ _)
              | exact ((((parseGo_suffix env eofSpan fuel _ _ _ h).trans
                          (parseGo_suffix env eofSpan fuel _ _ _ (by assumption))).trans
                         (List.suffix_cons _ _)).trans
                        (parseGo_suffix env eofSpan fuel _ _ _ (by assumption))).trans
                       (List.suffix_cons _ _)

theorem parseGo_mono (env : Env) (eofSpan : Span) :
    ∀ (fuel fuel' : Nat) (pc : PC) (r : Except Error (CBOR × TS)),
      parseGo env eofSpan fuel pc = some r → fuel ≤ fuel' →
      parseGo env eofSpan fuel' pc = some r
  | 0, _, _, _, h, _ => by simp [parseGo] at h
  | fuel + 1, fuel', pc, r, h, hf => by
    cases fuel' with
    | zero => omega
    | succ f' =>
      have hff : fuel ≤ f' := by omega
      cases pc with
      | item ts =>
        rcases ts with _ | ⟨⟨att, sp0⟩, rest0⟩
        · simpa [parseGo, expectTok] using h
        · cases att with
          | error e => simpa [parseGo, expectTok] using h
          | ok t =>
            have h2 := parseGo_mono env eofSpan fuel f' _ _
              (show parseGo env eofSpan fuel (.itemToken t sp0 rest0) = some r by
                simpa [parseGo, expectTok] using h) hff
            simpa [parseGo, expectTok] using h2
      | itemToken t sp ts =>
        cases t <;>
          first
            | simpa [parseGo] using h
            | (rename_i payload
               cases payload <;>
                 first
                   | simpa [parseGo] using h
                   | (simp only [parseGo] at h ⊢
                      exact parseGo_mono env eofSpan fuel f' _ _ h hff))
            | (simp only [parseGo] at h ⊢
               exact parseGo_mono env eofSpan fuel f' _ _ h hff)
      | numberTag v ts =>
        simp only [parseGo] at h ⊢
        cases hA : parseGo env eofSpan fuel (.item ts) with
        | none => rw [hA] at h; simp at h
        | some r0 =>
          rw [hA] at h
          rw [parseGo_mono env eofSpan fuel f' _ _ hA hff]
          exact h
      | nameTag nm sp ts =>
        simp only [parseGo] at h ⊢
        cases hA : parseGo env eofSpan fuel (.item ts) with
        | none => rw [hA] at h; simp at h
        | some r0 =>
          rw [hA] at h
          rw [parseGo_mono env eofSpan fuel f' _ _ hA hff]
          exact h
      | arrayLoop items ac ai ts =>
        rcases ts with _ | ⟨⟨att, sp0⟩, rest0⟩
        · simpa [parseGo, expectTok] using h
        · cases att with
          | error e => simpa [parseGo, expectTok] using h
          | ok t =>
            simp only [parseGo, expectTok] at h ⊢
            cases ac <;> cases t <;> (try dsimp only [] at h ⊢) <;>
              first
                | exact h
                | exact parseGo_mono env eofSpan fuel f' _ _ h hff
                | (rename_i payload
                   first
                     | (cases payload with
                        | error e => exact h
                        | ok v =>
                          (try dsimp only [] at h ⊢)
                          first
                            | exact h
                            | exact parseGo_mono env eofSpan fuel f' _ _ h hff
                            | (cases hA : parseGo env eofSpan fuel (.numberTag v rest0) with
                               | none => rw [hA] at h; simp at h
                               | some r0 =>
                                 rw [hA] at h
                                 rw [parseGo_mono env eofSpan fuel f' _ _ hA hff]
                                 cases r0 with
                                 | error e9 => exact h
                                 | ok pr =>
                                   rcases pr with ⟨c0, rest2⟩
                                   exact parseGo_mono env eofSpan fuel f' _ _ h hff)
                            | (cases hU : parseUr env v sp0 with
                               | error e => rw [hU] at h; exact h
                               | ok c0 =>
                                 rw [hU] at h
                                 exact parseGo_mono env eofSpan fuel f' _ _ h hff))
                     | (cases hS : parseString payload sp0 with
                        | error e => rw [hS] at h; exact h
                        | ok c0 =>
                          rw [hS] at h
                          exact parseGo_mono env eofSpan fuel f' _ _ h hff)
                     | (cases hK : env.knownValueForName payload with
                        | none => rw [hK] at h; exact h
                        | some k =>
                          rw [hK] at h
                          exact parseGo_mono env eofSpan fuel f' _ _ h hff)
                     | (cases hA : parseGo env eofSpan fuel (.nameTag payload sp0 rest0) with
                        | none => rw [hA] at h; simp at h
                        | some r0 =>
                          rw [hA] at h
                          rw [parseGo_mono env eofSpan fuel f' _ _ hA hff]
                          cases r0 with
                          | error e9 => exact h
                          | ok pr =>
                            rcases pr with ⟨c0, rest2⟩
                            exact parseGo_mono env eofSpan fuel f' _ _ h hff))
                | (cases hA : parseGo env eofSpan fuel (.arrayLoop [] false false rest0) with
                   | none => rw [hA] at h; simp at h
                   | some r0 =>
                     rw [hA] at h
                     rw [parseGo_mono env eofSpan fuel f' _ _ hA hff]
                     cases r0 with
                     | error e9 => exact h
                     | ok pr =>
                       rcases pr with ⟨c0, rest2⟩
                       exact parseGo_mono env eofSpan fuel f' _ _ h hff)
                | (cases hA : parseGo env eofSpan fuel (.mapLoop [] false false rest0) with
                   | none => rw [hA] at h; simp at h
                   | some r0 =>
                     rw [hA] at h
                     rw [parseGo_mono env eofSpan fuel f' _ _ hA hff]
                     cases r0 with
                     | error e9 => exact h
                     | ok pr =>
                       rcases pr with ⟨c0, rest2⟩
                       exact parseGo_mono env eofSpan fuel f' _ _ h hff)
      | mapLoop pairs ac ak ts =>
        rcases ts with _ | ⟨⟨att, sp0⟩, rest0⟩
        · simpa [parseGo] using h
        · cases att with
          | error e => simpa [parseGo] using h
          | ok t =>
            simp only [parseGo] at h ⊢
            split at h
            · -- t = braceClose
              cases ak with
              | false => exact h
              | true =>
                cases ac with
                | true => exact h
                | false =>
                  (try dsimp only [] at h ⊢)
                  cases hA : parseGo env eofSpan fuel (.itemToken .braceClose sp0 rest0) with
                     | none => rw [hA] at h; simp at h
                     | some r0 =>
                       rw [hA] at h
                       rw [parseGo_mono env eofSpan fuel f' _ _ hA hff]
                       cases r0 with
                       | error e9 => exact h
                       | ok pr =>
                         rcases pr with ⟨key, rest2⟩
                         rcases rest2 with _ | ⟨⟨attc, spc⟩, rest3⟩
                         · exact h
                         · cases attc with
                           | error e8 => exact h
                           | ok tc =>
                             cases tc <;> (try dsimp only [] at h ⊢) <;>
                               first
                                 | exact h
                                 | (cases hC : parseGo env eofSpan fuel (.item rest3) with
                                    | none => rw [hC] at h; simp at h
                                    | some r1 =>
                                      rw [hC] at h
                                      rw [parseGo_mono env eofSpan fuel f' _ _ hC hff]
                                      cases r1 with
                                      | error e7 =>
                                        cases e7 <;>
                                          first
                                            | exact h
                                            | (rename_i tv spv
                                               cases tv <;> exact h)
                                      | ok pr2 =>
                                        rcases pr2 with ⟨v, rest4⟩
                                        exact parseGo_mono env eofSpan fuel f' _ _ h hff)
            · -- t = comma
              cases ac with
              | true => exact parseGo_mono env eofSpan fuel f' _ _ h hff
              | false =>
                (try dsimp only [] at h ⊢)
                cases hA : parseGo env eofSpan fuel (.itemToken .comma sp0 rest0) with
                     | none => rw [hA] at h; simp at h
                     | some r0 =>
                       rw [hA] at h
                       rw [parseGo_mono env eofSpan fuel f' _ _ hA hff]
                       cases r0 with
                       | error e9 => exact h
                       | ok pr =>
                         rcases pr with ⟨key, rest2⟩
                         rcases rest2 with _ | ⟨⟨attc, spc⟩, rest3⟩
                         · exact h
                         · cases attc with
                           | error e8 => exact h
                           | ok tc =>
                             cases tc <;> (try dsimp only [] at h ⊢) <;>
                               first
                                 | exact h
                                 | (cases hC : parseGo env eofSpan fuel (.item rest3) with
                                    | none => rw [hC] at h; simp at h
                                    | some r1 =>
                                      rw [hC] at h
                                      rw [parseGo_mono env eofSpan fuel f' _ _ hC hff]
                                      cases r1 with
                                      | error e7 =>
                                        cases e7 <;>
                                          first
                                            | exact h
                                            | (rename_i tv spv
                                               cases tv <;> exact h)
                                      | ok pr2 =>
                                        rcases pr2 with ⟨v, rest4⟩
                                        exact parseGo_mono env eofSpan fuel f' _ _ h hff)
            · -- catch-all
              cases ac with
              | true => exact h
              | false =>
                (try dsimp only [] at h ⊢)
                cases hA : parseGo env eofSpan fuel (.itemToken t sp0 rest0) with
                       | none => rw [hA] at h; simp at h
                       | some r0 =>
                         rw [hA] at h
                         rw [parseGo_mono env eofSpan fuel f' _ _ hA hff]
                         cases r0 with
                         | error e9 => exact h
                         | ok pr =>
                           rcases pr with ⟨key, rest2⟩
                           rcases rest2 with _ | ⟨⟨attc, spc⟩, rest3⟩
                           · exact h
                           · cases attc with
                             | error e8 => exact h
                             | ok tc =>
                               cases tc <;> (try dsimp only [] at h ⊢) <;>
                                 first
                                   | exact h
                                   | (cases hC : parseGo env eofSpan fuel (.item rest3) with
                                      | none => rw [hC] at h; simp at h
                                      | some r1 =>
                                        rw [hC] at h
                                        rw [parseGo_mono env eofSpan fuel f' _ _ hC hff]
                                        cases r1 with
                                        | error e7 =>
                                          cases e7 <;>
                                            first
                                              | exact h
                                              | (rename_i tv spv
                                                 cases tv <;> exact h)
                                        | ok pr2 =>
                                          rcases pr2 with ⟨v, rest4⟩
                                          exact parseGo_mono env eofSpan fuel f' _ _ h hff)

theorem parseGo_fuel (env : Env) (eofSpan : Span) :
    ∀ (fuel : Nat) (pc : PC), pcCost pc ≤ fuel → parseGo env eofSpan fuel pc ≠ none
  | 0, pc, hcost => by cases pc <;> (simp only [pcCost] at hcost; omega)
  | fuel + 1, pc, hcost => by
    intro hn
    cases pc with
    | item ts =>
      rcases ts with _ | ⟨⟨att, sp0⟩, rest0⟩
      · simp [parseGo, expectTok] at hn
      · cases att with
        | error e => simp [parseGo, expectTok] at hn
        | ok t =>
          have hn' : parseGo env eofSpan fuel (.itemToken t sp0 rest0) = none := by
            simpa [parseGo, expectTok] using hn
          exact parseGo_fuel env eofSpan fuel _
            (by simp only [pcCost, List.length_cons] at hcost ⊢; omega) hn'
    | itemToken t sp ts =>
      cases t <;>
        first
          | (simp [parseGo] at hn; done)
          | (simp only [parseGo] at hn
             exact parseGo_fuel env eofSpan fuel _
               (by simp only [pcCost] at hcost ⊢; omega) hn)
          | (rename_i payload
             cases payload <;> (try simp only [parseGo] at hn) <;>
               first
                 | (simp at hn; done)
                 | (exact parseGo_fuel env eofSpan fuel _
                     (by simp only [pcCost] at hcost ⊢; omega) hn)
                 | (rename_i u
                    cases hU : parseUr env u sp <;> (rw [hU] at hn; simp at hn)))
          | (rename_i s9
             simp only [parseGo] at hn
             first
               | (cases hS : parseString s9 sp <;> (rw [hS] at hn; simp at hn))
               | (cases hK : env.knownValueForName s9 <;> (rw [hK] at hn; simp at hn)))
    | numberTag v ts =>
      simp only [parseGo] at hn
      cases hA : parseGo env eofSpan fuel (.item ts) with
      | none =>
        exact parseGo_fuel env eofSpan fuel _
          (by simp only [pcCost] at hcost ⊢; omega) hA
      | some r0 =>
        rw [hA] at hn
        cases r0 with
        | error e => simp at hn
        | ok pr =>
          rcases pr with ⟨c0, rest1⟩
          (try dsimp only [] at hn)
          cases hE : expectTok rest1 with
          | error e => rw [hE] at hn; cases e <;> simp at hn
          | ok tri =>
            rcases tri with ⟨t2, sp2, rest2⟩
            rw [hE] at hn
            cases t2 <;> simp at hn
    | nameTag nm sp ts =>
      simp only [parseGo] at hn
      cases hA : parseGo env eofSpan fuel (.item ts) with
      | none =>
        exact parseGo_fuel env eofSpan fuel _
          (by simp only [pcCost] at hcost ⊢; omega) hA
      | some r0 =>
        rw [hA] at hn
        cases r0 with
        | error e => simp at hn
        | ok pr =>
          rcases pr with ⟨c0, rest1⟩
          (try dsimp only [] at hn)
          cases hE : expectTok rest1 with
          | error e => rw [hE] at hn; simp at hn
          | ok tri =>
            rcases tri with ⟨t2, sp2, rest2⟩
            rw [hE] at hn
            cases t2 <;>
              first
                | (simp at hn; done)
                | (cases hT : env.tagForName nm <;> rw [hT] at hn <;> simp at hn)
    | arrayLoop items ac ai ts =>
      rcases ts with _ | ⟨⟨att, sp0⟩, rest0⟩
      · simp [parseGo, expectTok] at hn
      · cases att with
        | error e => simp [parseGo, expectTok] at hn
        | ok t =>
          simp only [parseGo, expectTok] at hn
          cases ac <;> cases ai <;> cases t <;> (try dsimp only [] at hn) <;>
            first
              | (simp at hn; done)
              | (exact parseGo_fuel env eofSpan fuel _
                  (by simp only [pcCost, List.length_cons] at hcost ⊢; omega) hn)
              | (rename_i payload
                 cases payload <;> (try dsimp only [] at hn) <;>
                   first
                     | (simp at hn; done)
                     | (exact parseGo_fuel env eofSpan fuel _
                         (by simp only [pcCost, List.length_cons] at hcost ⊢; omega) hn)
                     | (cases hA : parseGo env eofSpan fuel (.numberTag _ rest0) with
                        | none =>
                          exact parseGo_fuel env eofSpan fuel _
                            (by simp only [pcCost, List.length_cons] at hcost ⊢; omega) hA
                        | some r0 =>
                          rw [hA] at hn
                          cases r0 with
                          | error e9 => simp at hn
                          | ok pr =>
                            rcases pr with ⟨c0, rest2⟩
                            have hs := (parseGo_suffix env eofSpan fuel _ _ _ hA).length_le
                            exact parseGo_fuel env eofSpan fuel _
                              (by simp only [pcCost, PC.ts, List.length_cons] at hcost hs ⊢
                                  omega) hn)
                     | (cases hU : parseUr env _ sp0 with
                        | error e => rw [hU] at hn; simp at hn
                        | ok c0 =>
                          rw [hU] at hn
                          exact parseGo_fuel env eofSpan fuel _
                            (by simp only [pcCost, List.length_cons] at hcost ⊢; omega) hn))
              | (cases hS : parseString _ sp0 with
                 | error e => rw [hS] at hn; simp at hn
                 | ok c0 =>
                   rw [hS] at hn
                   exact parseGo_fuel env eofSpan fuel _
                     (by simp only [pcCost, List.length_cons] at hcost ⊢; omega) hn)
              | (cases hK : env.knownValueForName _ with
                 | none => rw [hK] at hn; simp at hn
                 | some k =>
                   rw [hK] at hn
                   exact parseGo_fuel env eofSpan fuel _
                     (by simp only [pcCost, List.length_cons] at hcost ⊢; omega) hn)
              | (cases hA : parseGo env eofSpan fuel (.nameTag _ sp0 rest0) with
                 | none =>
                   exact parseGo_fuel env eofSpan fuel _
                     (by simp only [pcCost, List.length_cons] at hcost ⊢; omega) hA
                 | some r0 =>
                   rw [hA] at hn
                   cases r0 with
                   | error e9 => simp at hn
                   | ok pr =>
                     rcases pr with ⟨c0, rest2⟩
                     have hs := (parseGo_suffix env eofSpan fuel _ _ _ hA).length_le
                     exact parseGo_fuel env eofSpan fuel _
                       (by simp only [pcCost, PC.ts, List.length_cons] at hcost hs ⊢
                           omega) hn)
              | (cases hA : parseGo env eofSpan fuel (.arrayLoop [] false false rest0) with
                 | none =>
                   exact parseGo_fuel env eofSpan fuel _
                     (by simp only [pcCost, List.length_cons] at hcost ⊢; omega) hA
                 | some r0 =>
                   rw [hA] at hn
                   cases r0 with
                   | error e9 => simp at hn
                   | ok pr =>
                     rcases pr with ⟨c0, rest2⟩
                     have hs := (parseGo_suffix env eofSpan fuel _ _ _ hA).length_le
                     exact parseGo_fuel env eofSpan fuel _
                       (by simp only [pcCost, PC.ts, List.length_cons] at hcost hs ⊢
                           omega) hn)
              | (cases hA : parseGo env eofSpan fuel (.mapLoop [] false false rest0) with
                 | none =>
                   exact parseGo_fuel env eofSpan fuel _
                     (by simp only [pcCost, List.length_cons] at hcost ⊢; omega) hA
                 | some r0 =>
                   rw [hA] at hn
                   cases r0 with
                   | error e9 => simp at hn
                   | ok pr =>
                     rcases pr with ⟨c0, rest2⟩
                     have hs := (parseGo_suffix env eofSpan fuel _ _ _ hA).length_le
                     exact parseGo_fuel env eofSpan fuel _
                       (by simp only [pcCost, PC.ts, List.length_cons] at hcost hs ⊢
                           omega) hn)
    | mapLoop pairs ac ak ts =>
      rcases ts with _ | ⟨⟨att, sp0⟩, rest0⟩
      · simp [parseGo] at hn
      · cases att with
        | error e => simp [parseGo] at hn
        | ok t =>
          simp only [parseGo] at hn
          split at hn
          · -- braceClose
            cases ak with
            | false => simp at hn
            | true =>
              cases ac with
              | true => simp at hn
              | false =>
                (try dsimp only [] at hn)
                cases hA : parseGo env eofSpan fuel (.itemToken .braceClose sp0 rest0) with
                | none =>
                  exact parseGo_fuel env eofSpan fuel _
                    (by simp only [pcCost, List.length_cons] at hcost ⊢; omega) hA
                | some r0 =>
                  rw [hA] at hn
                  cases r0 with
                  | error e9 => simp at hn
                  | ok pr =>
                    rcases pr with ⟨key, rest2⟩
                    have hs2 := (parseGo_suffix env eofSpan fuel _ _ _ hA).length_le
                    rcases rest2 with _ | ⟨⟨attc, spc⟩, rest3⟩
                    · simp at hn
                    · cases attc with
                      | error e8 => simp at hn
                      | ok tc =>
                        cases tc <;> (try dsimp only [] at hn) <;>
                          first
                            | (simp at hn; done)
                            | (cases hC : parseGo env eofSpan fuel (.item rest3) with
                               | none =>
                                 exact parseGo_fuel env eofSpan fuel _
                                   (by simp only [pcCost, PC.ts, List.length_cons] at hcost hs2 ⊢
                                       omega) hC
                               | some r1 =>
                                 rw [hC] at hn
                                 cases r1 with
                                 | error e7 =>
                                   cases e7 <;>
                                     first
                                       | (simp at hn; done)
                                       | (rename_i tv spv
                                          cases tv <;> simp at hn)
                                 | ok pr2 =>
                                   rcases pr2 with ⟨v, rest4⟩
                                   have hs3 := (parseGo_suffix env eofSpan fuel _ _ _ hC).length_le
                                   exact parseGo_fuel env eofSpan fuel _
                                     (by simp only [pcCost, PC.ts, List.length_cons]
                                           at hcost hs2 hs3 ⊢
                                         omega) hn)
          · -- comma
            cases ac with
            | true =>
              exact parseGo_fuel env eofSpan fuel _
                (by simp only [pcCost, List.length_cons] at hcost ⊢; omega) hn
            | false =>
              (try dsimp only [] at hn)
              cases hA : parseGo env eofSpan fuel (.itemToken .comma sp0 rest0) with
              | none =>
                exact parseGo_fuel env eofSpan fuel _
                  (by simp only [pcCost, List.length_cons] at hcost ⊢; omega) hA
              | some r0 =>
                rw [hA] at hn
                cases r0 with
                | error e9 => simp at hn
                | ok pr =>
                  rcases pr with ⟨key, rest2⟩
                  have hs2 := (parseGo_suffix env eofSpan fuel _ _ _ hA).length_le
                  rcases rest2 with _ | ⟨⟨attc, spc⟩, rest3⟩
                  · simp at hn
                  · cases attc with
                    | error e8 => simp at hn
                    | ok tc =>
                      cases tc <;> (try dsimp only [] at hn) <;>
                        first
                          | (simp at hn; done)
                          | (cases hC : parseGo env eofSpan fuel (.item rest3) with
                             | none =>
                               exact parseGo_fuel env eofSpan fuel _
                                 (by simp only [pcCost, PC.ts, List.length_cons] at hcost hs2 ⊢
                                     omega) hC
                             | some r1 =>
                               rw [hC] at hn
                               cases r1 with
                               | error e7 =>
                                 cases e7 <;>
                                   first
                                     | (simp at hn; done)
                                     | (rename_i tv spv
                                        cases tv <;> simp at hn)
                               | ok pr2 =>
                                 rcases pr2 with ⟨v, rest4⟩
                                 have hs3 := (parseGo_suffix env eofSpan fuel _ _ _ hC).length_le
                                 exact parseGo_fuel env eofSpan fuel _
                                   (by simp only [pcCost, PC.ts, List.length_cons]
                                         at hcost hs2 hs3 ⊢
                                       omega) hn)
          · -- catch-all
            cases ac with
            | true => simp at hn
            | false =>
              (try dsimp only [] at hn)
              cases hA : parseGo env eofSpan fuel (.itemToken t sp0 rest0) with
              | none =>
                exact parseGo_fuel env eofSpan fuel _
                  (by simp only [pcCost, List.length_cons] at hcost ⊢; omega) hA
              | some r0 =>
                rw [hA] at hn
                cases r0 with
                | error e9 => simp at hn
                | ok pr =>
                  rcases pr with ⟨key, rest2⟩
                  have hs2 := (parseGo_suffix env eofSpan fuel _ _ _ hA).length_le
                  rcases rest2 with _ | ⟨⟨attc, spc⟩, rest3⟩
                  · simp at hn
                  · cases attc with
                    | error e8 => simp at hn
                    | ok tc =>
                      cases tc <;> (try dsimp only [] at hn) <;>
                        first
                          | (simp at hn; done)
                          | (cases hC : parseGo env eofSpan fuel (.item rest3) with
                             | none =>
                               exact parseGo_fuel env eofSpan fuel _
                                 (by simp only [pcCost, PC.ts, List.length_cons] at hcost hs2 ⊢
                                     omega) hC
                             | some r1 =>
                               rw [hC] at hn
                               cases r1 with
                               | error e7 =>
                                 cases e7 <;>
                                   first
                                     | (simp at hn; done)
                                     | (rename_i tv spv
                                        cases tv <;> simp at hn)
                               | ok pr2 =>
                                 rcases pr2 with ⟨v, rest4⟩
                                 have hs3 := (parseGo_suffix env eofSpan fuel _ _ _ hC).length_le
                                 exact parseGo_fuel env eofSpan fuel _
                                   (by simp only [pcCost, PC.ts, List.length_cons]
                                         at hcost hs2 hs3 ⊢
                                       omega) hn)

theorem pre_nil_of_append_self {α : Type} {pre rest : List α} (h : rest = pre ++ rest) :
    pre = [] := by
  have hl := congrArg List.length h
  simp only [List.length_append] at hl
  exact List.eq_nil_of_length_eq_zero (by omega)

theorem cons_pre_split {α : Type} {x : α} {rest0 pre rest : List α}
    (hpre : x :: rest0 = pre ++ rest) (hlen : rest.length ≤ rest0.length) :
    ∃ pre', pre = x :: pre' ∧ rest0 = pre' ++ rest := by
  cases pre with
  | nil =>
    exfalso
    simp only [List.nil_append] at hpre
    rw [← hpre] at hlen
    simp only [List.length_cons] at hlen
    omega
  | cons y pre' =>
    rw [List.cons_append] at hpre
    injection hpre with h1 h2
    subst h1
    exact ⟨pre', rfl, h2⟩

theorem parseGo_frame (env : Env) (eofSpan eof2 : Span) :
    ∀ (fuel : Nat) (pc : PC) (c : CBOR) (rest : TS),
      parseGo env eofSpan fuel pc = some (.ok (c, rest)) →
      ∀ (pre tl : TS), pc.ts = pre ++ rest →
        parseGo env eof2 fuel (pc.setTs (pre ++ tl)) = some (.ok (c, tl))
  | 0, _, _, _, h, _, _, _ => by simp [parseGo] at h
  | fuel + 1, pc, c, rest, h, pre, tl, hpre => by
    cases pc with
    | item ts =>
      simp only [PC.ts] at hpre
      rcases ts with _ | ⟨⟨att, sp0⟩, rest0⟩
      · simp [parseGo, expectTok] at h
      · cases att with
        | error e => simp [parseGo, expectTok] at h
        | ok t =>
          have h2 : parseGo env eofSpan fuel (.itemToken t sp0 rest0) = some (.ok (c, rest)) := by
            simpa [parseGo, expectTok] using h
          have hlen := (parseGo_suffix env eofSpan fuel _ _ _ h2).length_le
          simp only [PC.ts] at hlen
          obtain ⟨pre2, rfl, hr0⟩ := cons_pre_split hpre hlen
          have ih := parseGo_frame env eofSpan eof2 fuel _ _ _ h2 pre2 tl hr0
          simp only [PC.setTs] at ih
          exact ih
    | itemToken t sp ts =>
      simp only [PC.ts] at hpre
      cases t <;>
        first
          | (simp [parseGo] at h; done)
          | (simp only [parseGo, Option.some.injEq, Except.ok.injEq, Prod.mk.injEq] at h
             obtain ⟨rfl, rfl⟩ := h
             have hp0 := pre_nil_of_append_self hpre
             subst hp0
             simp [parseGo, PC.setTs])
          | (simp only [parseGo] at h
             have ih := parseGo_frame env eofSpan eof2 fuel _ _ _ h pre tl hpre
             simp only [PC.setTs] at ih
             exact ih)
          | (rename_i payload
             cases payload <;>
               first
                 | (simp [parseGo] at h; done)
                 | (simp only [parseGo, Option.some.injEq, Except.ok.injEq, Prod.mk.injEq] at h
                    obtain ⟨rfl, rfl⟩ := h
                    have hp0 := pre_nil_of_append_self hpre
                    subst hp0
                    simp [parseGo, PC.setTs])
                 | (simp only [parseGo] at h
                    have ih := parseGo_frame env eofSpan eof2 fuel _ _ _ h pre tl hpre
                    simp only [PC.setTs] at ih
                    exact ih)
                 | (rename_i u
                    simp only [parseGo] at h
                    cases hU : parseUr env u sp with
                    | error e => rw [hU] at h; simp at h
                    | ok c0 =>
                      rw [hU] at h
                      simp only [Option.some.injEq, Except.ok.injEq, Prod.mk.injEq] at h
                      obtain ⟨rfl, rfl⟩ := h
                      have hp0 := pre_nil_of_append_self hpre
                      subst hp0
                      simp [parseGo, PC.setTs, hU]))
          | (rename_i s9
             simp only [parseGo] at h
             first
               | (cases hS : parseString s9 sp with
                  | error e => rw [hS] at h; simp at h
                  | ok c0 =>
                    rw [hS] at h
                    simp only [Option.some.injEq, Except.ok.injEq, Prod.mk.injEq] at h
                    obtain ⟨rfl, rfl⟩ := h
                    have hp0 := pre_nil_of_append_self hpre
                    subst hp0
                    simp [parseGo, PC.setTs, hS])
               | (cases hK : env.knownValueForName s9 with
                  | none => rw [hK] at h; simp at h
                  | some k =>
                    rw [hK] at h
                    simp only [Option.some.injEq, Except.ok.injEq, Prod.mk.injEq] at h
                    obtain ⟨rfl, rfl⟩ := h
                    have hp0 := pre_nil_of_append_self hpre
                    subst hp0
                    simp [parseGo, PC.setTs, hK]))
    | numberTag v ts =>
      simp only [PC.ts] at hpre
      simp only [parseGo] at h
      cases hA : parseGo env eofSpan fuel (.item ts) with
      | none => rw [hA] at h; simp at h
      | some r0 =>
        rw [hA] at h
        cases r0 with
        | error e => simp at h
        | ok pr =>
          rcases pr with ⟨c0, rest1⟩
          (try dsimp only [] at h)
          cases hE : expectTok rest1 with
          | error e =>
            rw [hE] at h
            cases e <;> simp at h
          | ok tri =>
            rcases tri with ⟨t2, sp2, rest2⟩
            rw [hE] at h
            cases t2 <;>
              first
                | (simp at h; done)
                | (simp only [Option.some.injEq, Except.ok.injEq, Prod.mk.injEq] at h
                   obtain ⟨rfl, rfl⟩ := h
                   have hB := expectTok_eq_ok.mp hE
                   have hsuf := parseGo_suffix env eofSpan fuel _ _ _ hA
                   simp only [PC.ts] at hsuf
                   obtain ⟨q, hq⟩ := hsuf
                   subst hB
                   have hpre2 : pre = q ++ [((.ok Token.parenClose : TokA), sp2)] :=
                     List.append_cancel_right
                       (show pre ++ rest2 =
                           (q ++ [((.ok Token.parenClose : TokA), sp2)]) ++ rest2 from by
                         rw [List.append_assoc, List.singleton_append, hq]
                         exact hpre.symm)
                   subst hpre2
                   have ih := parseGo_frame env eofSpan eof2 fuel _ _ _ hA q
                     (((.ok Token.parenClose : TokA), sp2) :: tl) hq.symm
                   simp only [PC.setTs] at ih
                   simp only [parseGo, PC.setTs, List.append_assoc, List.singleton_append]
                   rw [ih]
                   rfl)
    | nameTag nm sp ts =>
      simp only [PC.ts] at hpre
      simp only [parseGo] at h
      cases hA : parseGo env eofSpan fuel (.item ts) with
      | none => rw [hA] at h; simp at h
      | some r0 =>
        rw [hA] at h
        cases r0 with
        | error e => simp at h
        | ok pr =>
          rcases pr with ⟨c0, rest1⟩
          (try dsimp only [] at h)
          cases hE : expectTok rest1 with
          | error e =>
            rw [hE] at h
            simp at h
          | ok tri =>
            rcases tri with ⟨t2, sp2, rest2⟩
            rw [hE] at h
            cases t2 <;>
              first
                | (simp at h; done)
                | (cases hT : env.tagForName nm with
                   | none => rw [hT] at h; simp at h
                   | some tag =>
                     rw [hT] at h
                     simp only [Option.some.injEq, Except.ok.injEq, Prod.mk.injEq] at h
                     obtain ⟨rfl, rfl⟩ := h
                     have hB := expectTok_eq_ok.mp hE
                     have hsuf := parseGo_suffix env eofSpan fuel _ _ _ hA
                     simp only [PC.ts] at hsuf
                     obtain ⟨q, hq⟩ := hsuf
                     subst hB
                     have hpre2 : pre = q ++ [((.ok Token.parenClose : TokA), sp2)] :=
                       List.append_cancel_right
                         (show pre ++ rest2 =
                             (q ++ [((.ok Token.parenClose : TokA), sp2)]) ++ rest2 from by
                           rw [List.append_assoc, List.singleton_append, hq]
                           exact hpre.symm)
                     subst hpre2
                     have ih := parseGo_frame env eofSpan eof2 fuel _ _ _ hA q
                       (((.ok Token.parenClose : TokA), sp2) :: tl) hq.symm
                     simp only [PC.setTs] at ih
                     simp only [parseGo, PC.setTs, List.append_assoc, List.singleton_append]
                     rw [ih]
                     (try dsimp only [])
                     rw [hT]
                     rfl)
    | arrayLoop items ac ai ts =>
      simp only [PC.ts] at hpre
      rcases ts with _ | ⟨⟨att, sp0⟩, rest0⟩
      · simp [parseGo, expectTok] at h
      · cases att with
        | error e => simp [parseGo, expectTok] at h
        | ok t =>
          simp only [parseGo, expectTok] at h
          cases ac <;> cases ai <;> cases t <;> (try dsimp only [] at h) <;>
            first
              | (simp at h; done)
              | (simp at h
                 obtain ⟨rfl, rfl⟩ := h
                 have hpre2 : pre = [((.ok Token.bracketClose : TokA), sp0)] :=
                   List.append_cancel_right
                     (show pre ++ rest0 =
                         [((.ok Token.bracketClose : TokA), sp0)] ++ rest0 from hpre.symm)
                 subst hpre2
                 rfl)
              | ((try dsimp only [] at h)
                 have hlen := (parseGo_suffix env eofSpan fuel _ _ _ h).length_le
                 simp only [PC.ts] at hlen
                 obtain ⟨pre2, rfl, h2⟩ := cons_pre_split hpre hlen
                 have ih := parseGo_frame env eofSpan eof2 fuel _ _ _ h pre2 tl h2
                 simp only [PC.setTs] at ih
                 exact ih)
              | (rename_i payload
                 cases payload <;> (try dsimp only [] at h) <;>
                   first
                     | (simp at h; done)
                     | ((try dsimp only [] at h)
                        have hlen := (parseGo_suffix env eofSpan fuel _ _ _ h).length_le
                        simp only [PC.ts] at hlen
                        obtain ⟨pre2, rfl, h2⟩ := cons_pre_split hpre hlen
                        have ih := parseGo_frame env eofSpan eof2 fuel _ _ _ h pre2 tl h2
                        simp only [PC.setTs] at ih
                        exact ih)
                     | (rename_i v
                        cases hA : parseGo env eofSpan fuel (.numberTag v rest0) with
                        | none => rw [hA] at h; simp at h
                        | some r0 =>
                          rw [hA] at h
                          cases r0 with
                          | error e9 => simp at h
                          | ok pr =>
                            rcases pr with ⟨c0, rest2⟩
                            (try dsimp only [] at h)
                            have hq2x := parseGo_suffix env eofSpan fuel _ _ _ hA
                            have hq3x := parseGo_suffix env eofSpan fuel _ _ _ h
                            simp only [PC.ts] at hq2x hq3x
                            obtain ⟨q2, hq2⟩ := hq2x
                            obtain ⟨q3, hq3⟩ := hq3x
                            have hlen : rest.length ≤ rest0.length := by
                              rw [← hq2, ← hq3]
                              simp only [List.length_append]
                              omega
                            obtain ⟨pre2, rfl, h2⟩ := cons_pre_split hpre hlen
                            have hpre2 : pre2 = q2 ++ q3 :=
                              List.append_cancel_right
                                (show pre2 ++ rest = (q2 ++ q3) ++ rest from by
                                  rw [List.append_assoc, hq3, hq2]; exact h2.symm)
                            subst hpre2
                            have ih1 := parseGo_frame env eofSpan eof2 fuel _ _ _ hA q2 (q3 ++ tl) hq2.symm
                            have ih2 := parseGo_frame env eofSpan eof2 fuel _ _ _ h q3 tl hq3.symm
                            simp only [PC.setTs] at ih1 ih2
                            simp only [parseGo, expectTok, PC.setTs, List.cons_append, List.append_assoc]
                            (try dsimp only [])
                            rw [ih1]
                            (try dsimp only [])
                            exact ih2)
                     | (rename_i u
                        cases hU : parseUr env u sp0 with
                        | error e => rw [hU] at h; simp at h
                        | ok c0 =>
                          rw [hU] at h
                          (try dsimp only [] at h)
                          have hlen := (parseGo_suffix env eofSpan fuel _ _ _ h).length_le
                          simp only [PC.ts] at hlen
                          obtain ⟨pre2, rfl, h2⟩ := cons_pre_split hpre hlen
                          have ih := parseGo_frame env eofSpan eof2 fuel _ _ _ h pre2 tl h2
                          simp only [PC.setTs] at ih
                          simp only [parseGo, expectTok, PC.setTs, List.cons_append]
                          (try dsimp only [])
                          rw [hU]
                          exact ih))
              | (rename_i s9
                 cases hS : parseString s9 sp0 with
                 | error e => rw [hS] at h; simp at h
                 | ok c0 =>
                   rw [hS] at h
                   (try dsimp only [] at h)
                   have hlen := (parseGo_suffix env eofSpan fuel _ _ _ h).length_le
                   simp only [PC.ts] at hlen
                   obtain ⟨pre2, rfl, h2⟩ := cons_pre_split hpre hlen
                   have ih := parseGo_frame env eofSpan eof2 fuel _ _ _ h pre2 tl h2
                   simp only [PC.setTs] at ih
                   simp only [parseGo, expectTok, PC.setTs, List.cons_append]
                   (try dsimp only [])
                   rw [hS]
                   exact ih)
              | (rename_i s9
                 cases hK : env.knownValueForName s9 with
                 | none => rw [hK] at h; simp at h
                 | some k =>
                   rw [hK] at h
                   (try dsimp only [] at h)
                   have hlen := (parseGo_suffix env eofSpan fuel _ _ _ h).length_le
                   simp only [PC.ts] at hlen
                   obtain ⟨pre2, rfl, h2⟩ := cons_pre_split hpre hlen
                   have ih := parseGo_frame env eofSpan eof2 fuel _ _ _ h pre2 tl h2
                   simp only [PC.setTs] at ih
                   simp only [parseGo, expectTok, PC.setTs, List.cons_append]
                   (try dsimp only [])
                   rw [hK]
                   exact ih)
              | (rename_i nm9
                 cases hA : parseGo env eofSpan fuel (.nameTag nm9 sp0 rest0) with
                 | none => rw [hA] at h; simp at h
                 | some r0 =>
                   rw [hA] at h
                   cases r0 with
                   | error e9 => simp at h
                   | ok pr =>
                     rcases pr with ⟨c0, rest2⟩
                     (try dsimp only [] at h)
                     have hq2x := parseGo_suffix env eofSpan fuel _ _ _ hA
                     have hq3x := parseGo_suffix env eofSpan fuel _ _ _ h
                     simp only [PC.ts] at hq2x hq3x
                     obtain ⟨q2, hq2⟩ := hq2x
                     obtain ⟨q3, hq3⟩ := hq3x
                     have hlen : rest.length ≤ rest0.length := by
                       rw [← hq2, ← hq3]
                       simp only [List.length_append]
                       omega
                     obtain ⟨pre2, rfl, h2⟩ := cons_pre_split hpre hlen
                     have hpre2 : pre2 = q2 ++ q3 :=
                       List.append_cancel_right
                         (show pre2 ++ rest = (q2 ++ q3) ++ rest from by
                           rw [List.append_assoc, hq3, hq2]; exact h2.symm)
                     subst hpre2
                     have ih1 := parseGo_frame env eofSpan eof2 fuel _ _ _ hA q2 (q3 ++ tl) hq2.symm
                     have ih2 := parseGo_frame env eofSpan eof2 fuel _ _ _ h q3 tl hq3.symm
                     simp only [PC.setTs] at ih1 ih2
                     simp only [parseGo, expectTok, PC.setTs, List.cons_append, List.append_assoc]
                     (try dsimp only [])
                     rw [ih1]
                     (try dsimp only [])
                     exact ih2)
              | (skip
                 cases hA : parseGo env eofSpan fuel (.arrayLoop [] false false rest0) with
                 | none => rw [hA] at h; simp at h
                 | some r0 =>
                   rw [hA] at h
                   cases r0 with
                   | error e9 => simp at h
                   | ok pr =>
                     rcases pr with ⟨c0, rest2⟩
                     (try dsimp only [] at h)
                     have hq2x := parseGo_suffix env eofSpan fuel _ _ _ hA
                     have hq3x := parseGo_suffix env eofSpan fuel _ _ _ h
                     simp only [PC.ts] at hq2x hq3x
                     obtain ⟨q2, hq2⟩ := hq2x
                     obtain ⟨q3, hq3⟩ := hq3x
                     have hlen : rest.length ≤ rest0.length := by
                       rw [← hq2, ← hq3]
                       simp only [List.length_append]
                       omega
                     obtain ⟨pre2, rfl, h2⟩ := cons_pre_split hpre hlen
                     have hpre2 : pre2 = q2 ++ q3 :=
                       List.append_cancel_right
                         (show pre2 ++ rest = (q2 ++ q3) ++ rest from by
                           rw [List.append_assoc, hq3, hq2]; exact h2.symm)
                     subst hpre2
                     have ih1 := parseGo_frame env eofSpan eof2 fuel _ _ _ hA q2 (q3 ++ tl) hq2.symm
                     have ih2 := parseGo_frame env eofSpan eof2 fuel _ _ _ h q3 tl hq3.symm
                     simp only [PC.setTs] at ih1 ih2
                     simp only [parseGo, expectTok, PC.setTs, List.cons_append, List.append_assoc]
                     (try dsimp only [])
                     rw [ih1]
                     (try dsimp only [])
                     exact ih2)
              | (skip
                 cases hA : parseGo env eofSpan fuel (.mapLoop [] false false rest0) with
                 | none => rw [hA] at h; simp at h
                 | some r0 =>
                   rw [hA] at h
                   cases r0 with
                   | error e9 => simp at h
                   | ok pr =>
                     rcases pr with ⟨c0, rest2⟩
                     (try dsimp only [] at h)
                     have hq2x := parseGo_suffix env eofSpan fuel _ _ _ hA
                     have hq3x := parseGo_suffix env eofSpan fuel _ _ _ h
                     simp only [PC.ts] at hq2x hq3x
                     obtain ⟨q2, hq2⟩ := hq2x
                     obtain ⟨q3, hq3⟩ := hq3x
                     have hlen : rest.length ≤ rest0.length := by
                       rw [← hq2, ← hq3]
                       simp only [List.length_append]
                       omega
                     obtain ⟨pre2, rfl, h2⟩ := cons_pre_split hpre hlen
                     have hpre2 : pre2 = q2 ++ q3 :=
                       List.append_cancel_right
                         (show pre2 ++ rest = (q2 ++ q3) ++ rest from by
                           rw [List.append_assoc, hq3, hq2]; exact h2.symm)
                     subst hpre2
                     have ih1 := parseGo_frame env eofSpan eof2 fuel _ _ _ hA q2 (q3 ++ tl) hq2.symm
                     have ih2 := parseGo_frame env eofSpan eof2 fuel _ _ _ h q3 tl hq3.symm
                     simp only [PC.setTs] at ih1 ih2
                     simp only [parseGo, expectTok, PC.setTs, List.cons_append, List.append_assoc]
                     (try dsimp only [])
                     rw [ih1]
                     (try dsimp only [])
                     exact ih2)
    | mapLoop pairs ac ak ts =>
      simp only [PC.ts] at hpre
      rcases ts with _ | ⟨⟨att, sp0⟩, rest0⟩
      · simp [parseGo] at h
      · cases att with
        | error e => simp [parseGo] at h
        | ok t =>
          simp only [parseGo] at h
          split at h
          · -- braceClose
            cases ak with
            | false =>
              simp at h
              obtain ⟨rfl, rfl⟩ := h
              have hpre2 : pre = [((.ok Token.braceClose : TokA), sp0)] :=
                List.append_cancel_right
                  (show pre ++ rest0 =
                      [((.ok Token.braceClose : TokA), sp0)] ++ rest0 from hpre.symm)
              subst hpre2
              rfl
            | true =>
              cases ac with
              | true => simp at h
              | false =>
                (try dsimp only [] at h)
                cases hA : parseGo env eofSpan fuel (.itemToken .braceClose sp0 rest0) with
                | none => rw [hA] at h; simp at h
                | some r0 =>
                  rw [hA] at h
                  cases r0 with
                  | error e9 => simp at h
                  | ok pr =>
                    rcases pr with ⟨key, rest2⟩
                    (try dsimp only [] at h)
                    rcases rest2 with _ | ⟨⟨attc, spc⟩, rest3⟩
                    · simp at h
                    · cases attc with
                      | error e8 => simp at h
                      | ok tc =>
                        cases tc <;> (try dsimp only [] at h) <;>
                          first
                            | (simp at h; done)
                            | (cases hC : parseGo env eofSpan fuel (.item rest3) with
                               | none => rw [hC] at h; simp at h
                               | some r1 =>
                                 rw [hC] at h
                                 cases r1 with
                                 | error e7 =>
                                   cases e7 <;>
                                     first
                                       | (simp at h; done)
                                       | (rename_i tv spv
                                          cases tv <;> simp at h)
                                 | ok pr2 =>
                                   rcases pr2 with ⟨v, rest4⟩
                                   (try dsimp only [] at h)
                                   have hq1x := parseGo_suffix env eofSpan fuel _ _ _ hA
                                   have hq2x := parseGo_suffix env eofSpan fuel _ _ _ hC
                                   have hq3x := parseGo_suffix env eofSpan fuel _ _ _ h
                                   simp only [PC.ts] at hq1x hq2x hq3x
                                   obtain ⟨q1, hq1⟩ := hq1x
                                   obtain ⟨q2, hq2⟩ := hq2x
                                   obtain ⟨q3, hq3⟩ := hq3x
                                   have hlen : rest.length ≤ rest0.length := by
                                     rw [← hq1, ← hq2, ← hq3]
                                     simp only [List.length_append, List.length_cons]
                                     omega
                                   obtain ⟨pre2, rfl, h2⟩ := cons_pre_split hpre hlen
                                   have hpre2 : pre2 = q1 ++ ((.ok Token.colon : TokA), spc) :: (q2 ++ q3) :=
                                     List.append_cancel_right
                                       (show pre2 ++ rest =
                                           (q1 ++ ((.ok Token.colon : TokA), spc) :: (q2 ++ q3)) ++ rest from by
                                         rw [List.append_assoc, List.cons_append, List.append_assoc,
                                            hq3, hq2, hq1]
                                         exact h2.symm)
                                   subst hpre2
                                   have ih1 := parseGo_frame env eofSpan eof2 fuel _ _ _ hA q1
                                     (((.ok Token.colon : TokA), spc) :: (q2 ++ (q3 ++ tl))) hq1.symm
                                   have ih2 := parseGo_frame env eofSpan eof2 fuel _ _ _ hC q2 (q3 ++ tl) hq2.symm
                                   have ih3 := parseGo_frame env eofSpan eof2 fuel _ _ _ h q3 tl hq3.symm
                                   simp only [PC.setTs] at ih1 ih2 ih3
                                   simp only [parseGo, PC.setTs, List.cons_append, List.append_assoc]
                                   (try dsimp only [])
                                   rw [ih1]
                                   (try dsimp only [])
                                   rw [ih2]
                                   (try dsimp only [])
                                   exact ih3)
          · -- comma
            cases ac with
            | true =>
              (try dsimp only [] at h)
              have hlen := (parseGo_suffix env eofSpan fuel _ _ _ h).length_le
              simp only [PC.ts] at hlen
              obtain ⟨pre2, rfl, h2⟩ := cons_pre_split hpre hlen
              have ih := parseGo_frame env eofSpan eof2 fuel _ _ _ h pre2 tl h2
              simp only [PC.setTs] at ih
              exact ih
            | false =>
              (try dsimp only [] at h)
              cases hA : parseGo env eofSpan fuel (.itemToken .comma sp0 rest0) with
              | none => rw [hA] at h; simp at h
              | some r0 =>
                rw [hA] at h
                cases r0 with
                | error e9 => simp at h
                | ok pr =>
                  rcases pr with ⟨key, rest2⟩
                  (try dsimp only [] at h)
                  rcases rest2 with _ | ⟨⟨attc, spc⟩, rest3⟩
                  · simp at h
                  · cases attc with
                    | error e8 => simp at h
                    | ok tc =>
                      cases tc <;> (try dsimp only [] at h) <;>
                        first
                          | (simp at h; done)
                          | (cases hC : parseGo env eofSpan fuel (.item rest3) with
                             | none => rw [hC] at h; simp at h
                             | some r1 =>
                               rw [hC] at h
                               cases r1 with
                               | error e7 =>
                                 cases e7 <;>
                                   first
                                     | (simp at h; done)
                                     | (rename_i tv spv
                                        cases tv <;> simp at h)
                               | ok pr2 =>
                                 rcases pr2 with ⟨v, rest4⟩
                                 (try dsimp only [] at h)
                                 have hq1x := parseGo_suffix env eofSpan fuel _ _ _ hA
                                 have hq2x := parseGo_suffix env eofSpan fuel _ _ _ hC
                                 have hq3x := parseGo_suffix env eofSpan fuel _ _ _ h
                                 simp only [PC.ts] at hq1x hq2x hq3x
                                 obtain ⟨q1, hq1⟩ := hq1x
                                 obtain ⟨q2, hq2⟩ := hq2x
                                 obtain ⟨q3, hq3⟩ := hq3x
                                 have hlen : rest.length ≤ rest0.length := by
                                   rw [← hq1, ← hq2, ← hq3]
                                   simp only [List.length_append, List.length_cons]
                                   omega
                                 obtain ⟨pre2, rfl, h2⟩ := cons_pre_split hpre hlen
                                 have hpre2 : pre2 = q1 ++ ((.ok Token.colon : TokA), spc) :: (q2 ++ q3) :=
                                   List.append_cancel_right
                                     (show pre2 ++ rest =
                                         (q1 ++ ((.ok Token.colon : TokA), spc) :: (q2 ++ q3)) ++ rest from by
                                       rw [List.append_assoc, List.cons_append, List.append_assoc,
                                          hq3, hq2, hq1]
                                       exact h2.symm)
                                 subst hpre2
                                 have ih1 := parseGo_frame env eofSpan eof2 fuel _ _ _ hA q1
                                   (((.ok Token.colon : TokA), spc) :: (q2 ++ (q3 ++ tl))) hq1.symm
                                 have ih2 := parseGo_frame env eofSpan eof2 fuel _ _ _ hC q2 (q3 ++ tl) hq2.symm
                                 have ih3 := parseGo_frame env eofSpan eof2 fuel _ _ _ h q3 tl hq3.symm
                                 simp only [PC.setTs] at ih1 ih2 ih3
                                 simp only [parseGo, PC.setTs, List.cons_append, List.append_assoc]
                                 (try dsimp only [])
                                 rw [ih1]
                                 (try dsimp only [])
                                 rw [ih2]
                                 (try dsimp only [])
                                 exact ih3)
          · -- catch-all
            cases ac with
            | true => simp at h
            | false =>
              (try dsimp only [] at h)
              cases hA : parseGo env eofSpan fuel (.itemToken t sp0 rest0) with
              | none => rw [hA] at h; simp at h
              | some r0 =>
                rw [hA] at h
                cases r0 with
                | error e9 => simp at h
                | ok pr =>
                  rcases pr with ⟨key, rest2⟩
                  (try dsimp only [] at h)
                  rcases rest2 with _ | ⟨⟨attc, spc⟩, rest3⟩
                  · simp at h
                  · cases attc with
                    | error e8 => simp at h
                    | ok tc =>
                      cases tc <;> (try dsimp only [] at h) <;>
                        first
                          | (simp at h; done)
                          | (cases hC : parseGo env eofSpan fuel (.item rest3) with
                             | none => rw [hC] at h; simp at h
                             | some r1 =>
                               rw [hC] at h
                               cases r1 with
                               | error e7 =>
                                 cases e7 <;>
                                   first
                                     | (simp at h; done)
                                     | (rename_i tv spv
                                        cases tv <;> simp at h)
                               | ok pr2 =>
                                 rcases pr2 with ⟨v, rest4⟩
                                 (try dsimp only [] at h)
                                 have hq1x := parseGo_suffix env eofSpan fuel _ _ _ hA
                                 have hq2x := parseGo_suffix env eofSpan fuel _ _ _ hC
                                 have hq3x := parseGo_suffix env eofSpan fuel _ _ _ h
                                 simp only [PC.ts] at hq1x hq2x hq3x
                                 obtain ⟨q1, hq1⟩ := hq1x
                                 obtain ⟨q2, hq2⟩ := hq2x
                                 obtain ⟨q3, hq3⟩ := hq3x
                                 have hlen : rest.length ≤ rest0.length := by
                                   rw [← hq1, ← hq2, ← hq3]
                                   simp only [List.length_append, List.length_cons]
                                   omega
                                 obtain ⟨pre2, rfl, h2⟩ := cons_pre_split hpre hlen
                                 have hpre2 : pre2 = q1 ++ ((.ok Token.colon : TokA), spc) :: (q2 ++ q3) :=
                                   List.append_cancel_right
                                     (show pre2 ++ rest =
                                         (q1 ++ ((.ok Token.colon : TokA), spc) :: (q2 ++ q3)) ++ rest from by
                                       rw [List.append_assoc, List.cons_append, List.append_assoc,
                                          hq3, hq2, hq1]
                                       exact h2.symm)
                                 subst hpre2
                                 have ih1 := parseGo_frame env eofSpan eof2 fuel _ _ _ hA q1
                                   (((.ok Token.colon : TokA), spc) :: (q2 ++ (q3 ++ tl))) hq1.symm
                                 have ih2 := parseGo_frame env eofSpan eof2 fuel _ _ _ hC q2 (q3 ++ tl) hq2.symm
                                 have ih3 := parseGo_frame env eofSpan eof2 fuel _ _ _ h q3 tl hq3.symm
                                 simp only [PC.setTs] at ih1 ih2 ih3
                                 simp only [parseGo, PC.setTs, List.cons_append, List.append_assoc]
                                 (try dsimp only [])
                                 rw [ih1]
                                 (try dsimp only [])
                                 rw [ih2]
                                 (try dsimp only [])
                                 exact ih3)

theorem skipLen_take {l : List Char} {k : Nat} (hk : skipLen l ≤ k) :
    skipLen (l.take k) = skipLen l := by
  cases hml : matchLen isSkipMatch l with
  | none =>
    unfold skipLen
    rw [matchLen_take_none hml, hml]
  | some n =>
    have hn : n ≤ k := by
      unfold skipLen at hk
      rw [hml] at hk
      simpa using hk
    unfold skipLen
    rw [matchLen_take hml hn, hml]

theorem lexAllF_start_ge (env : Env) (src : List Char) :
    ∀ (fuel pos : Nat) (pre : TS) (a2 : TokA) (sp2 : Span) (rest2 : TS),
      lexAllF env src fuel pos = pre ++ (a2, sp2) :: rest2 → pos ≤ sp2.start
  | 0, pos, pre, a2, sp2, rest2, h => by simp [lexAllF] at h
  | fuel + 1, pos, pre, a2, sp2, rest2, h => by
    simp only [lexAllF] at h
    split at h
    · simp at h
    · split at h
      · cases pre with
        | nil =>
          simp only [List.nil_append] at h
          injection h with h1 h2
          injection h1 with h1a h1b
          subst h1b
          exact Nat.le_add_right _ _
        | cons x pre' =>
          rw [List.cons_append] at h
          injection h with h1 h2
          have hge := lexAllF_start_ge env src fuel _ pre' a2 sp2 rest2 h2
          omega
      · cases pre with
        | nil =>
          simp only [List.nil_append] at h
          injection h with h1 h2
          injection h1 with h1a h1b
          subst h1b
          exact Nat.le_add_right _ _
        | cons x pre' =>
          rw [List.cons_append] at h
          injection h with h1 h2
          have hge := lexAllF_start_ge env src fuel _ pre' a2 sp2 rest2 h2
          omega

theorem lexAllF_take (env : Env) (src : List Char) :
    ∀ (fuel pos : Nat) (pre : TS) (a2 : TokA) (sp2 : Span) (rest2 : TS),
      lexAllF env src fuel pos = pre ++ (a2, sp2) :: rest2 →
      lexAllF env (src.take sp2.start) fuel pos = pre
  | 0, pos, pre, a2, sp2, rest2, h => by simp [lexAllF] at h
  | fuel + 1, pos, pre, a2, sp2, rest2, h => by
    simp only [lexAllF] at h
    split at h
    · simp at h
    · rename_i hsc
      obtain ⟨hd0, tl0, hcons⟩ : ∃ a b,
          (src.drop pos).drop (skipLen (src.drop pos)) = a :: b := by
        cases hcase : (src.drop pos).drop (skipLen (src.drop pos)) with
        | nil => exact absurd hcase hsc
        | cons a b => exact ⟨a, b, rfl⟩
      split at h
      · rename_i pn hw
        cases pre with
        | nil =>
          simp only [List.nil_append] at h
          injection h with h1 h2
          injection h1 with h1a h1b
          subst h1b
          have hd : (src.take (pos + skipLen (src.drop pos))).drop pos =
              (src.drop pos).take (pos + skipLen (src.drop pos) - pos) := by
            rw [List.drop_take]
          have harg : pos + skipLen (src.drop pos) - pos = skipLen (src.drop pos) := by omega
          rw [harg] at hd
          have hsk2 : skipLen ((src.drop pos).take (skipLen (src.drop pos))) =
              skipLen (src.drop pos) := skipLen_take (le_refl _)
          have hempty : ((src.drop pos).take (skipLen (src.drop pos))).drop
              (skipLen (src.drop pos)) = [] := by
            rw [List.drop_take]
            simp
          simp only [lexAllF]
          (try dsimp only [])
          rw [hd, hsk2, hempty]
        | cons x pre' =>
          rw [List.cons_append] at h
          injection h with h1 h2
          subst h1
          have hge := lexAllF_start_ge env src fuel _ pre' a2 sp2 rest2 h2
          have hih := lexAllF_take env src fuel _ pre' a2 sp2 rest2 h2
          have hpn := winner_pos hw
          have hd : (src.take sp2.start).drop pos = (src.drop pos).take (sp2.start - pos) := by
            rw [List.drop_take]
          have hsk2 : skipLen ((src.drop pos).take (sp2.start - pos)) =
              skipLen (src.drop pos) := skipLen_take (by omega)
          have hsuf2 : ((src.drop pos).take (sp2.start - pos)).drop (skipLen (src.drop pos)) =
              ((src.drop pos).drop (skipLen (src.drop pos))).take
                (sp2.start - pos - skipLen (src.drop pos)) := by
            rw [List.drop_take]
          have hw2 := winner_take hw
            (show pn.2 ≤ sp2.start - pos - skipLen (src.drop pos) by omega)
          have hslice : (((src.drop pos).drop (skipLen (src.drop pos))).take
                (sp2.start - pos - skipLen (src.drop pos))).take pn.2 =
              ((src.drop pos).drop (skipLen (src.drop pos))).take pn.2 := by
            rw [List.take_take, Nat.min_eq_left (by omega)]
          obtain ⟨j, hj⟩ : ∃ j, sp2.start - pos - skipLen (src.drop pos) = j + 1 :=
            ⟨sp2.start - pos - skipLen (src.drop pos) - 1, by omega⟩
          rw [hcons, hj, List.take_succ_cons] at hw2 hslice
          simp only [lexAllF]
          (try dsimp only [])
          rw [hd, hsk2, hsuf2, hcons, hj, List.take_succ_cons]
          (try dsimp only [])
          rw [hw2]
          (try dsimp only [])
          rw [hslice, hih]
      · rename_i hw
        cases pre with
        | nil =>
          simp only [List.nil_append] at h
          injection h with h1 h2
          injection h1 with h1a h1b
          subst h1b
          have hd : (src.take (pos + skipLen (src.drop pos))).drop pos =
              (src.drop pos).take (pos + skipLen (src.drop pos) - pos) := by
            rw [List.drop_take]
          have harg : pos + skipLen (src.drop pos) - pos = skipLen (src.drop pos) := by omega
          rw [harg] at hd
          have hsk2 : skipLen ((src.drop pos).take (skipLen (src.drop pos))) =
              skipLen (src.drop pos) := skipLen_take (le_refl _)
          have hempty : ((src.drop pos).take (skipLen (src.drop pos))).drop
              (skipLen (src.drop pos)) = [] := by
            rw [List.drop_take]
            simp
          simp only [lexAllF]
          (try dsimp only [])
          rw [hd, hsk2, hempty]
        | cons x pre' =>
          rw [List.cons_append] at h
          injection h with h1 h2
          subst h1
          have hge := lexAllF_start_ge env src fuel _ pre' a2 sp2 rest2 h2
          have hih := lexAllF_take env src fuel _ pre' a2 sp2 rest2 h2
          have hd : (src.take sp2.start).drop pos = (src.drop pos).take (sp2.start - pos) := by
            rw [List.drop_take]
          have hsk2 : skipLen ((src.drop pos).take (sp2.start - pos)) =
              skipLen (src.drop pos) := skipLen_take (by omega)
          have hsuf2 : ((src.drop pos).take (sp2.start - pos)).drop (skipLen (src.drop pos)) =
              ((src.drop pos).drop (skipLen (src.drop pos))).take
                (sp2.start - pos - skipLen (src.drop pos)) := by
            rw [List.drop_take]
          have hw2 := winner_take_none hw
            (k := sp2.start - pos - skipLen (src.drop pos))
          obtain ⟨j, hj⟩ : ∃ j, sp2.start - pos - skipLen (src.drop pos) = j + 1 :=
            ⟨sp2.start - pos - skipLen (src.drop pos) - 1, by omega⟩
          rw [hcons, hj, List.take_succ_cons] at hw2
          simp only [lexAllF]
          (try dsimp only [])
          rw [hd, hsk2, hsuf2, hcons, hj, List.take_succ_cons]
          (try dsimp only [])
          rw [hw2]
          (try dsimp only [])
          rw [hih]

theorem lexAllF_stable (env : Env) (src : List Char) :
    ∀ (f1 f2 pos : Nat), src.length - pos < f1 → src.length - pos < f2 →
      lexAllF env src f1 pos = lexAllF env src f2 pos
  | 0, _, pos, h1, _ => absurd h1 (by omega)
  | _ + 1, 0, pos, _, h2 => absurd h2 (by omega)
  | f1 + 1, f2 + 1, pos, h1, h2 => by
    simp only [lexAllF]
    cases hsc : (src.drop pos).drop (skipLen (src.drop pos)) with
    | nil => rfl
    | cons hd0 tl0 =>
      have hl := congrArg List.length hsc
      simp only [List.length_drop, List.length_cons] at hl
      cases hw : winner (hd0 :: tl0) with
      | some pn =>
        have hpn := winner_pos hw
        (try dsimp only [])
        rw [lexAllF_stable env src f1 f2 (pos + skipLen (src.drop pos) + pn.2)
          (by omega) (by omega)]
      | none =>
        (try dsimp only [])
        rw [lexAllF_stable env src f1 f2 (pos + skipLen (src.drop pos) + 1)
          (by omega) (by omega)]

theorem lexAll_take (env : Env) {src : List Char} {pre : TS} {a2 : TokA} {sp2 : Span}
    {rest2 : TS} (h : lexAll env src = pre ++ (a2, sp2) :: rest2) :
    lexAll env (src.take sp2.start) = pre := by
  unfold lexAll at h ⊢
  have h1 := lexAllF_take env src (src.length + 1) 0 pre a2 sp2 rest2 h
  rw [← h1]
  exact lexAllF_stable env (src.take sp2.start) ((src.take sp2.start).length + 1)
    (src.length + 1) 0 (by omega) (by simp only [List.length_take]; omega)

/-- C3: whenever `parse_item_partial` succeeds with `(c, k)`, the consumed
count `k` is the start offset of the first unconsumed token (the head of the
leftover token stream), or the full source length when nothing is left; the
lexer run on the prefix `src[..k]` yields exactly the consumed tokens, and
`parse_item` on that prefix yields the same value `c`; in particular
`parse_item_partial("true )")` yields `(Bool(true), 5)`. -/
theorem claim_C3 (env : Env) (src : List Char) (c : CBOR) (k : Nat)
    (h : parse_dcbor_item_part env src = .ok (c, k)) :
    parse_dcbor_item env (src.take k) = .ok c ∧
    (∃ pre rest, lexAll env src = pre ++ rest ∧
        lexAll env (src.take k) = pre ∧
        (match rest with
         | [] => k = src.length
         | (_, sp2) :: _ => k = sp2.start)) ∧
    parse_dcbor_item_part defaultEnv "true )".toList = .ok (.bool true, 5) := by
  have main : parse_dcbor_item env (src.take k) = .ok c ∧
      (∃ pre rest, lexAll env src = pre ++ rest ∧
        lexAll env (src.take k) = pre ∧
        (match rest with
         | [] => k = src.length
         | (_, sp2) :: _ => k = sp2.start)) := by
    unfold parse_dcbor_item_part at h
    cases hE : expectTok (lexAll env src) with
    | error e =>
      rw [hE] at h
      cases e <;> simp at h
    | ok tri =>
      rcases tri with ⟨t, sp, rest0⟩
      rw [hE] at h
      (try dsimp only [] at h)
      cases hP : parseGo env ⟨src.length, src.length⟩ (fuelFor rest0)
          (.itemToken t sp rest0) with
      | none => rw [hP] at h; simp at h
      | some r0 =>
        rw [hP] at h
        cases r0 with
        | error e => simp at h
        | ok pr =>
          rcases pr with ⟨c0, rest⟩
          have hstream := expectTok_eq_ok.mp hE
          have hsuf := parseGo_suffix env ⟨src.length, src.length⟩ (fuelFor rest0) _ _ _ hP
          simp only [PC.ts] at hsuf
          obtain ⟨q, hq⟩ := hsuf
          cases rest with
          | nil =>
            (try dsimp only [] at h)
            simp only [Except.ok.injEq, Prod.mk.injEq] at h
            obtain ⟨rfl, rfl⟩ := h
            constructor
            · rw [List.take_length]
              unfold parse_dcbor_item
              rw [hE]
              (try dsimp only [])
              rw [hP]
            · exact ⟨lexAll env src, [], by simp, by rw [List.take_length], rfl⟩
          | cons hd rest' =>
            rcases hd with ⟨a2, sp2⟩
            (try dsimp only [] at h)
            simp only [Except.ok.injEq, Prod.mk.injEq] at h
            obtain ⟨rfl, rfl⟩ := h
            have hstream2 : lexAll env src =
                (((.ok t : TokA), sp) :: q) ++ ((a2, sp2) :: rest') := by
              rw [hstream, ← hq, List.cons_append]
            have hlex := lexAll_take env hstream2
            have hframe := parseGo_frame env ⟨src.length, src.length⟩
              ⟨(src.take sp2.start).length, (src.take sp2.start).length⟩ (fuelFor rest0)
              (.itemToken t sp rest0) c0 ((a2, sp2) :: rest') hP q [] hq.symm
            rw [List.append_nil] at hframe
            simp only [PC.setTs] at hframe
            have hne := parseGo_fuel env
              ⟨(src.take sp2.start).length, (src.take sp2.start).length⟩
              (fuelFor q) (.itemToken t sp q) (by simp only [pcCost, fuelFor]; omega)
            cases hP2 : parseGo env
                ⟨(src.take sp2.start).length, (src.take sp2.start).length⟩
                (fuelFor q) (.itemToken t sp q) with
            | none => exact absurd hP2 hne
            | some r2 =>
              have hm1 := parseGo_mono env
                ⟨(src.take sp2.start).length, (src.take sp2.start).length⟩
                (fuelFor q) (fuelFor q + fuelFor rest0) _ _ hP2 (by omega)
              have hm2 := parseGo_mono env
                ⟨(src.take sp2.start).length, (src.take sp2.start).length⟩
                (fuelFor rest0) (fuelFor q + fuelFor rest0) _ _ hframe (by omega)
              rw [hm1] at hm2
              injection hm2 with hr2
              subst hr2
              refine ⟨?_, ⟨((.ok t : TokA), sp) :: q, (a2, sp2) :: rest',
                hstream2, hlex, rfl⟩⟩
              unfold parse_dcbor_item
              rw [show expectTok (lexAll env (src.take sp2.start)) =
                  .ok (t, sp, q) from by rw [hlex]; rfl]
              (try dsimp only [])
              rw [hP2]
  exact ⟨main.1, main.2, by rfl⟩

theorem claim_C3_witness :
    parse_dcbor_item_part defaultEnv "true )".toList = .ok (.bool true, 5) ∧
    (parse_dcbor_item defaultEnv ("true )".toList.take 5) = .ok (.bool true) ∧
     (∃ pre rest, lexAll defaultEnv "true )".toList = pre ++ rest ∧
        lexAll defaultEnv ("true )".toList.take 5) = pre ∧
        (match rest with
         | [] => 5 = "true )".toList.length
         | (_, sp2) :: _ => 5 = sp2.start)) ∧
     parse_dcbor_item_part defaultEnv "true )".toList = .ok (.bool true, 5)) :=
  ⟨rfl, claim_C3 defaultEnv "true )".toList (.bool true) 5 rfl⟩

theorem claim_C7_witness :
    CBOR.beq (CBOR.number (Dec.ofNat 1)) (CBOR.number (Dec.ofNat 1)) = true ∧
    mapInsert [(CBOR.number (Dec.ofNat 1), CBOR.number (Dec.ofNat 2))]
      (CBOR.number (Dec.ofNat 1)) (CBOR.number (Dec.ofNat 3)) =
      [(CBOR.number (Dec.ofNat 1), CBOR.number (Dec.ofNat 3))] :=
  ⟨rfl, claim_C7.2.1 [] (CBOR.number (Dec.ofNat 1)) (CBOR.number (Dec.ofNat 2))
    (CBOR.number (Dec.ofNat 1)) (CBOR.number (Dec.ofNat 3)) rfl⟩

end DcborParse
